import Mathlib

set_option maxRecDepth 8000

/-!
Shallow embedding of the WooWonder data extractor (src/app.py) and proofs of the
frozen claims about it.

Modelling conventions:
* Python values occurring in records are modelled by `Val` (null, bool, int,
  string, dict).  JSON arrays and floats never influence the claimed behaviour:
  the code only branches on dict-ness, string-ness, truthiness and int-parsing,
  and any value that is none of the modelled shapes behaves like `Val.vdict`
  does in those branches (not a str, not a dict, int() raises TypeError).
* Python dicts are insertion-ordered association lists (`Rec`).  Assignment
  `d[k] = v` replaces the value in place when the key exists and appends
  otherwise (`dictSet`), exactly like CPython dicts.
* `json.loads` is a standard-library collaborator; it is passed in as a
  parameter `js : String → Option Val` (`none` models a raised JSONDecodeError).
  All claims are proved for every such decoder.
* `datetime.fromtimestamp(ts).strftime("%Y-%m-%d %H:%M:%S")` is modelled by
  `formatTimestamp`, the standard civil-from-days calendar computation, with
  the process timezone taken to be UTC.
* The network is a parameter: `srv : Nat → ApiResult α` gives the outcome of
  the n-th API call of a paginator run, and `attempts : Nat → AttemptOutcome β`
  gives the outcome of the n-th HTTP attempt inside make_api_request.
* Loops are embedded with an explicit iteration budget (fuel); termination of
  the Python loop is the theorem that the result is independent of the budget
  once it is large enough.
-/

/-- Python values stored in records (src/app.py handles JSON payloads). -/
inductive Val where
  | vnull
  | vbool (b : Bool)
  | vint (n : Int)
  | vstr (s : String)
  | vdict (d : List (String × Val))

/-- A Python dict as an insertion-ordered association list. -/
abbrev Rec := List (String × Val)

/-- Lookup in a dict: Python d.get(k) / d[k] (first matching key). -/
def dictGet : Rec → String → Option Val
  | [], _ => none
  | kv :: rest, k => if kv.1 = k then some kv.2 else dictGet rest k

/-- Assignment d[k] = v with CPython dict semantics: an existing key keeps its
position and gets the new value, a new key is appended at the end. -/
def dictSet : Rec → String → Val → Rec
  | [], k, v => [(k, v)]
  | kv :: rest, k, v => if kv.1 = k then (k, v) :: rest else kv :: dictSet rest k v

/-- Python truthiness of a value (the `if x:` test). -/
def pyTruthy : Val → Bool
  | Val.vnull => false
  | Val.vbool b => b
  | Val.vint n => n != 0
  | Val.vstr s => s != ""
  | Val.vdict d => !d.isEmpty

/-- Digit run of a Python int literal body: digits, with single underscores
allowed between digits (CPython int() grouping rule). -/
def parseDigitsAux : List Char → Nat → Option Nat
  | [], acc => some acc
  | c :: cs, acc =>
    if c.isDigit then parseDigitsAux cs (10 * acc + (c.toNat - 48))
    else if c = '_' then
      match cs with
      | c2 :: _ => if c2.isDigit then parseDigitsAux cs acc else none
      | [] => none
    else none

/-- Digit run that must start with a digit. -/
def parseDigitsStart (cs : List Char) : Option Nat :=
  match cs with
  | [] => none
  | c :: _ => if c.isDigit then parseDigitsAux cs 0 else none

/-- CPython int(s) on a string: strip surrounding whitespace, optional sign,
then a digit run (with underscore grouping); any other shape raises ValueError
(modelled as `none`). -/
def pyIntOfString (s : String) : Option Int :=
  let cs := ((s.data.dropWhile Char.isWhitespace).reverse.dropWhile Char.isWhitespace).reverse
  match cs with
  | '-' :: rest => (parseDigitsStart rest).map (fun n => -(n : Int))
  | '+' :: rest => (parseDigitsStart rest).map (fun n => (n : Int))
  | rest => (parseDigitsStart rest).map (fun n => (n : Int))

/-- CPython int(x) for the value shapes of `Val`: ints pass through, bools are
0/1, strings are parsed, everything else raises TypeError (`none`). -/
def pyToInt : Val → Option Int
  | Val.vint n => some n
  | Val.vbool b => some (if b then 1 else 0)
  | Val.vstr s => pyIntOfString s
  | _ => none

/-- Two-digit zero padding for calendar components. -/
def pad2 (n : Int) : String := if n < 10 then "0" ++ toString n else toString n

/-- Proleptic Gregorian date of a day count since 1970-01-01 (the standard
civil-from-days algorithm; all divisions are floor divisions on nonnegative
divisors, hence ediv). -/
def civilFromDays (z0 : Int) : Int × Int × Int :=
  let z := z0 + 719468
  let era := z.ediv 146097
  let doe := z - era * 146097
  let yoe := (doe - doe.ediv 1460 + doe.ediv 36524 - doe.ediv 146096).ediv 365
  let y := yoe + era * 400
  let doy := doe - (365 * yoe + yoe.ediv 4 - yoe.ediv 100)
  let mp := (5 * doy + 2).ediv 153
  let d := doy - (153 * mp + 2).ediv 5 + 1
  let m := mp + (if mp < 10 then 3 else -9)
  (y + (if m ≤ 2 then 1 else 0), m, d)

/-- The calendar string datetime.fromtimestamp(ts).strftime("%Y-%m-%d %H:%M:%S")
produces when the conversion succeeds, with the process timezone taken to be
UTC (src/app.py lines 170 and 209). -/
def formatTimestamp (ts : Int) : String :=
  let days := ts.ediv 86400
  let secs := ts.emod 86400
  let ymd := civilFromDays days
  let hh := secs.ediv 3600
  let mm := (secs.emod 3600).ediv 60
  let ss := secs.emod 60
  toString ymd.1 ++ "-" ++ pad2 ymd.2.1 ++ "-" ++ pad2 ymd.2.2 ++ " "
    ++ pad2 hh ++ ":" ++ pad2 mm ++ ":" ++ pad2 ss

/-- Epoch seconds of 0001-01-01T00:00:00 UTC, the smallest timestamp whose
calendar year lies in the range 1..9999 supported by datetime. -/
def tsMinValid : Int := -62135596800

/-- Epoch seconds of 9999-12-31T23:59:59 UTC, the largest timestamp whose
calendar year lies in the range 1..9999 supported by datetime. -/
def tsMaxValid : Int := 253402300799

/-- Smallest value of the platform time_t (64-bit signed). -/
def timeTMinVal : Int := -9223372036854775808

/-- Largest value of the platform time_t (64-bit signed). -/
def timeTMaxVal : Int := 9223372036854775807

/-- Outcome of datetime.fromtimestamp(ts).strftime(...): ok carries the
formatted string; a timestamp within the platform time_t whose calendar year
falls outside 1..9999 raises ValueError (which the surrounding
except (ValueError, TypeError) clause catches); a timestamp that does not fit
the platform time_t raises OverflowError, which that clause does NOT catch,
so it aborts the whole processing call. -/
inductive TsResult where
  | ok (s : String)
  | valueError
  | overflowError
  deriving DecidableEq

/-- datetime.fromtimestamp(ts).strftime("%Y-%m-%d %H:%M:%S") for an integer
ts, with its error behaviour (src/app.py lines 168-172 and 207-211). -/
def fromtimestampFmt (ts : Int) : TsResult :=
  if ts < timeTMinVal ∨ timeTMaxVal < ts then TsResult.overflowError
  else if ts < tsMinValid ∨ tsMaxValid < ts then TsResult.valueError
  else TsResult.ok (formatTimestamp ts)

/-! ## Transport: make_api_request (src/app.py lines 44-69) -/

/-- Outcome of one HTTP attempt, classified the way the two except clauses of
make_api_request classify raised exceptions: a network-level failure
(requests.exceptions.RequestException: connection error, timeout, non-2xx via
raise_for_status), a malformed-payload failure (json.JSONDecodeError raised by
response.json()), or a decoded payload. -/
inductive AttemptOutcome (β : Type) where
  | requestException
  | decodeError
  | ok (payload : β)
  deriving DecidableEq

/-- The `for attempt in range(retries)` loop of make_api_request.  `fuel` is
the number of remaining loop indices (initially `retries`).  Per attempt:
a decoded payload is returned; a JSONDecodeError reports and returns None at
once (lines 65-67); a RequestException returns None on the last attempt and
otherwise sleeps 2 ** attempt and retries (lines 59-63).  The second component
counts how many attempts were actually performed. -/
def apiLoop (attempts : Nat → AttemptOutcome β) (retries : Nat) :
    Nat → Nat → Option β × Nat
  | attempt, 0 => (none, attempt)
  | attempt, fuel + 1 =>
    match attempts attempt with
    | AttemptOutcome.ok p => (some p, attempt + 1)
    | AttemptOutcome.decodeError => (none, attempt + 1)
    | AttemptOutcome.requestException =>
      if attempt = retries - 1 then (none, attempt + 1)
      else apiLoop attempts retries (attempt + 1) fuel

/-- make_api_request (src/app.py lines 44-69): run the attempt loop from
attempt 0; returns the decoded payload (or None) and the number of attempts
consumed. -/
def make_api_request (attempts : Nat → AttemptOutcome β) (retries : Nat) :
    Option β × Nat :=
  apiLoop attempts retries 0 retries

/-! ## Paginator: bulk_fetch_articles (src/app.py lines 91-137), record-count
view.  The per-page records are opaque (type α). -/

/-- Result of one page call as bulk_fetch_articles observes it (line 116):
`failure` models make_api_request returning None (or a falsy payload);
`success st batch` models a truthy JSON object whose api_status field is `st`
and whose articles field is `batch` (absent fields read through .get
defaults). -/
inductive ApiResult (α : Type) where
  | failure
  | success (apiStatus : Int) (batch : List α)
  deriving DecidableEq

/-- What one page run contributes to all_articles: a failed or non-200 page
contributes nothing (lines 130-132); a 200 page contributes its batch
(line 123, also when the batch is short or empty). -/
def pageContrib : ApiResult α → List α
  | ApiResult.failure => []
  | ApiResult.success st batch => if st = 200 then batch else []

/-- Observable trace of one bulk_fetch_articles run: the accumulated articles
and the (limit, offset) of every request that was constructed, in order. -/
structure BulkRun (α : Type) where
  articles : List α
  requests : List (Int × Int)
  deriving DecidableEq

/-- The `while total_fetched < total_limit` loop of bulk_fetch_articles
(src/app.py lines 100-137).  `srv n` is the outcome of the (n+1)-st API call;
the call index equals the number of requests already issued.  `fuel` is the
iteration budget; the run is fuel-independent once the budget is at least the
target (proved below), which is the termination statement. -/
def bulkLoop (srv : Nat → ApiResult α) (apiLimit baseOffset totalLimit : Int) :
    Nat → Int → List α → List (Int × Int) → BulkRun α
  | 0, _, acc, reqs => ⟨acc, reqs⟩
  | fuel + 1, totalFetched, acc, reqs =>
    if totalFetched < totalLimit then
      let currentLimit := min apiLimit (totalLimit - totalFetched)
      let reqs' := reqs ++ [(currentLimit, baseOffset + totalFetched)]
      match srv reqs.length with
      | ApiResult.failure => ⟨acc, reqs'⟩
      | ApiResult.success status batch =>
        if status = 200 then
          if batch.isEmpty then ⟨acc, reqs'⟩
          else if (batch.length : Int) < currentLimit then ⟨acc ++ batch, reqs'⟩
          else
            bulkLoop srv apiLimit baseOffset totalLimit fuel
              (totalFetched + batch.length) (acc ++ batch) reqs'
        else ⟨acc, reqs'⟩
    else ⟨acc, reqs⟩

/-- bulk_fetch_articles (src/app.py lines 91-137), record-count view.
`baseLimit` and `baseOffset` are post_data.get("limit", 1000) and
post_data.get("offset", 0); api_limit = min(1000, baseLimit) is computed once
before the loop (line 95).  The iteration budget totalLimit.toNat always
suffices (each continued iteration appends a nonempty batch). -/
def bulk_fetch_articles (srv : Nat → ApiResult α) (baseLimit baseOffset : Option Int)
    (totalLimit : Int) : BulkRun α :=
  bulkLoop srv (min 1000 (baseLimit.getD 1000)) (baseOffset.getD 0) totalLimit
    totalLimit.toNat 0 [] []

/-- Ceiling of x / 1000 for a nonnegative target (ceil(targetTotal / 1000) in
the claims; negative targets give 0 pages). -/
def pagesNeeded (x : Int) : Nat := (x.toNat + 999) / 1000

/-- The end-to-end scenario server of the spec: every call returns exactly the
requested count for target 2500 (1000, 1000, then 500 records). -/
def scenarioSrv : Nat → ApiResult Unit :=
  fun n => ApiResult.success 200 (List.replicate (if n < 2 then 1000 else 500) ())

/-! ## Paginator, dict-and-heap view (for the frame claim C10).

Python dicts are heap objects mutated in place; post_data.copy() allocates a
fresh dict.  The heap is a list of dicts indexed by allocation order; the
base request of the caller lives at address 0. -/

/-- Heap of allocated dicts. -/
abbrev Heap := List Rec

/-- Read the dict at an address. -/
def heapGet (h : Heap) (a : Nat) : Rec := (h[a]?).getD []

/-- Overwrite the dict at an address. -/
def heapSet (h : Heap) (a : Nat) (d : Rec) : Heap := h.set a d

/-- In-place dict assignment d[k] = v for the dict at address a. -/
def heapSetKey (h : Heap) (a : Nat) (k : String) (v : Val) : Heap :=
  heapSet h a (dictSet (heapGet h a) k v)

/-- post_data.get(k, default) for the integer-valued limit and offset fields
of the base request (the app builds them as ints, src/app.py lines 453-456);
the frame claim is independent of these values. -/
def pyDictGetInt (d : Rec) (k : String) (dflt : Int) : Int :=
  match dictGet d k with
  | some (Val.vint n) => n
  | _ => dflt

/-- The bulk fetch loop at the dict level.  Each iteration copies the base
dict into a fresh cell (current_post_data = post_data.copy(), line 106), sets
limit and offset on the copy (lines 107-108), and make_api_request injects
server_key into the dict it was handed (line 51) -- that is the copy, never
the base.  Control flow is exactly that of `bulkLoop`. -/
def bulkLoopState (srv : Nat → ApiResult α) (serverKey : String) (baseAddr : Nat)
    (apiLimit baseOffset totalLimit : Int) :
    Nat → Int → Nat → Heap → List α → Heap × List α
  | 0, _, _, h, acc => (h, acc)
  | fuel + 1, totalFetched, callIdx, h, acc =>
    if totalFetched < totalLimit then
      let currentLimit := min apiLimit (totalLimit - totalFetched)
      let copyAddr := h.length
      let h1 := h ++ [heapGet h baseAddr]
      let h2 := heapSetKey h1 copyAddr "limit" (Val.vint currentLimit)
      let h3 := heapSetKey h2 copyAddr "offset" (Val.vint (baseOffset + totalFetched))
      let h4 := heapSetKey h3 copyAddr "server_key" (Val.vstr serverKey)
      match srv callIdx with
      | ApiResult.failure => (h4, acc)
      | ApiResult.success status batch =>
        if status = 200 then
          if batch.isEmpty then (h4, acc)
          else if (batch.length : Int) < currentLimit then (h4, acc ++ batch)
          else
            bulkLoopState srv serverKey baseAddr apiLimit baseOffset totalLimit fuel
              (totalFetched + batch.length) (callIdx + 1) h4 (acc ++ batch)
        else (h4, acc)
    else (h, acc)

/-- bulk_fetch_articles at the dict level: the caller dict postData is
allocated at address 0, api_limit and current_offset are read from it once
(src/app.py lines 94-95), and the loop runs. -/
def bulk_fetch_articles_state (srv : Nat → ApiResult α) (serverKey : String)
    (postData : Rec) (totalLimit : Int) : Heap × List α :=
  bulkLoopState srv serverKey 0 (min 1000 (pyDictGetInt postData "limit" 1000))
    (pyDictGetInt postData "offset" 0) totalLimit totalLimit.toNat 0 0 [postData] []

/-! ## Normalizer (src/app.py lines 71-89 and 139-215) -/

/-- extract_author_info (src/app.py lines 71-89): a falsy author value gives
(None, None); a string is JSON-decoded (decode failure gives (None, None));
a dict yields (d.get("username", ""), d.get("email", "")); anything else
gives (None, None). -/
def extract_author_info (js : String → Option Val) (authorData : Val) : Val × Val :=
  if pyTruthy authorData = false then (Val.vnull, Val.vnull)
  else
    match authorData with
    | Val.vstr s =>
      match js s with
      | none => (Val.vnull, Val.vnull)
      | some a2 =>
        match a2 with
        | Val.vdict d => ((dictGet d "username").getD (Val.vstr ""),
                          (dictGet d "email").getD (Val.vstr ""))
        | _ => (Val.vnull, Val.vnull)
    | Val.vdict d => ((dictGet d "username").getD (Val.vstr ""),
                      (dictGet d "email").getD (Val.vstr ""))
    | _ => (Val.vnull, Val.vnull)

/-- The timestamp fields recognized for articles (src/app.py line 166). -/
def articleTimeFields : List String := ["time", "created_at", "updated_at"]

/-- The timestamp fields recognized for users (src/app.py line 205). -/
def userTimeFields : List String := ["lastseen", "last_data_update", "point_day_expire"]

/-- One step of the timestamp loop (src/app.py lines 166-172 and 205-211):
if the field is present and truthy and int(value) succeeds, run
datetime.fromtimestamp(...).strftime(...).  A successful conversion adds
field_readable; a ValueError or TypeError (from int() on a bad value, or from
fromtimestamp on a year outside 1..9999) is caught and leaves the record
untouched; an OverflowError from fromtimestamp (timestamp out of range for
the platform time_t) is not caught, so the whole call raises (`none`). -/
def tsStep (r : Rec) (f : String) : Option Rec :=
  match dictGet r f with
  | none => some r
  | some v =>
    if pyTruthy v then
      match pyToInt v with
      | some ts =>
        match fromtimestampFmt ts with
        | TsResult.ok s => some (dictSet r (f ++ "_readable") (Val.vstr s))
        | TsResult.valueError => some r
        | TsResult.overflowError => none
      | none => some r
    else some r

/-- The whole timestamp loop over a field list; an uncaught OverflowError at
any field aborts it. -/
def tsConvert (fields : List String) (r : Rec) : Option Rec :=
  fields.foldlM tsStep r

/-- Whether the timestamp step writes the readable key for field f of record
r (present, truthy, int-parsable and convertible by fromtimestamp). -/
def tsFires (r : Rec) (f : String) : Bool :=
  match dictGet r f with
  | some v =>
    pyTruthy v &&
      (match pyToInt v with
       | some ts =>
         match fromtimestampFmt ts with
         | TsResult.ok _ => true
         | _ => false
       | none => false)
  | none => false

/-- Author stage of process_articles_data (src/app.py lines 146-157): on a
copy of the article, set author_username and author_email from
extract_author_info, then flatten a dict-valued author field, skipping the
username and email keys. -/
def authorStage (js : String → Option Val) (article : Rec) : Rec :=
  let authorData := (dictGet article "author").getD (Val.vdict [])
  let ids := extract_author_info js authorData
  let p1 := dictSet (dictSet article "author_username" ids.1) "author_email" ids.2
  match authorData with
  | Val.vdict d =>
    d.foldl (fun acc kv =>
      if kv.1 = "username" || kv.1 = "email" then acc
      else dictSet acc ("author_" ++ kv.1) kv.2) p1
  | _ => p1

/-- Category stage of process_articles_data (src/app.py lines 160-163):
a dict-valued category field of the original article adds category_name and
category_id. -/
def categoryStage (article p : Rec) : Rec :=
  match dictGet article "category" with
  | some (Val.vdict cd) =>
    dictSet (dictSet p "category_name" ((dictGet cd "name").getD (Val.vstr "")))
      "category_id" ((dictGet cd "id").getD (Val.vstr ""))
  | _ => p

/-- The stages of process_articles_data before the timestamp loop
(src/app.py lines 144-163). -/
def articlePreTs (js : String → Option Val) (article : Rec) : Rec :=
  categoryStage article (authorStage js article)

/-- Processing of one article (body of the loop in process_articles_data,
src/app.py lines 143-174); `none` models an uncaught exception from the
timestamp loop. -/
def process_article (js : String → Option Val) (article : Rec) : Option Rec :=
  tsConvert articleTimeFields (articlePreTs js article)

/-- process_articles_data (src/app.py lines 139-176); an uncaught exception
from any record aborts the whole call. -/
def process_articles_data (js : String → Option Val) (articles : List Rec) :
    Option (List Rec) :=
  articles.mapM (process_article js)

/-- The stages of process_users_data before the timestamp loop (src/app.py
lines 183-202): copy the user, flatten a dict-valued details field, then
handle notification_settings.  The notification block decodes a string value
with json.loads (a JSONDecodeError is caught and skips the block) and then
iterates notification_settings.items(); when the value is not a dict at that
point, .items() raises AttributeError, which the except clause
(JSONDecodeError, TypeError) does NOT catch, so the whole call fails
(`none`). -/
def detailsStage (user : Rec) : Rec :=
  match dictGet user "details" with
  | some (Val.vdict d) =>
    d.foldl (fun acc kv => dictSet acc ("details_" ++ kv.1) kv.2) user
  | _ => user

/-- Notification stage of process_users_data (src/app.py lines 192-202); see
the userPreTs doc comment for the uncaught AttributeError case. -/
def notificationStage (js : String → Option Val) (user p : Rec) : Option Rec :=
  match dictGet user "notification_settings" with
  | none => some p
  | some (Val.vstr s) =>
    match js s with
    | none => some p
    | some (Val.vdict d) =>
      some (d.foldl (fun acc kv => dictSet acc ("notification_" ++ kv.1) kv.2) p)
    | some _ => none
  | some (Val.vdict d) =>
    some (d.foldl (fun acc kv => dictSet acc ("notification_" ++ kv.1) kv.2) p)
  | some _ => none

def userPreTs (js : String → Option Val) (user : Rec) : Option Rec :=
  notificationStage js user (detailsStage user)

/-- Processing of one user (body of the loop in process_users_data,
src/app.py lines 182-213); `none` models an uncaught exception from the
notification block or from the timestamp loop. -/
def process_user (js : String → Option Val) (user : Rec) : Option Rec :=
  (userPreTs js user).bind (tsConvert userTimeFields)

/-- process_users_data (src/app.py lines 178-215); an uncaught exception from
any record aborts the whole call. -/
def process_users_data (js : String → Option Val) (users : List Rec) : Option (List Rec) :=
  users.mapM (process_user js)

/-- The entries the author flatten loop of process_articles_data iterates
over: the author value when it is a dict, nothing otherwise. -/
def authorDictOf (article : Rec) : List (String × Val) :=
  match (dictGet article "author").getD (Val.vdict []) with
  | Val.vdict d => d
  | _ => []

/-- The entries the details flatten loop of process_users_data iterates
over. -/
def detailsDictOf (user : Rec) : List (String × Val) :=
  match dictGet user "details" with
  | some (Val.vdict d) => d
  | _ => []

/-- The entries the notification flatten loop of process_users_data iterates
over on the non-raising paths (a dict value, possibly after json.loads). -/
def notifDictOf (js : String → Option Val) (user : Rec) : List (String × Val) :=
  match dictGet user "notification_settings" with
  | some (Val.vstr s) =>
    match js s with
    | some (Val.vdict d) => d
    | _ => []
  | some (Val.vdict d) => d
  | _ => []

/-- The keys that processing an article writes (for the amended losslessness
claim C7): the two identity fields always; author_-prefixed flattened keys of
a dict-valued author (username and email excluded); category_name and
category_id for a dict-valued category; field_readable for each timestamp
field whose conversion fires. -/
def articleWrittenKeys (article : Rec) : List String :=
  ["author_username", "author_email"]
  ++ ((authorDictOf article).filter
      (fun kv => !(kv.1 = "username" || kv.1 = "email"))).map
        (fun kv => "author_" ++ kv.1)
  ++ (match dictGet article "category" with
      | some (Val.vdict _) => ["category_name", "category_id"]
      | _ => [])
  ++ (articleTimeFields.filter (fun f => tsFires article f)).map (fun f => f ++ "_readable")

/-- The keys that processing a user writes (for the amended losslessness
claim C7). -/
def userWrittenKeys (js : String → Option Val) (user : Rec) : List String :=
  (detailsDictOf user).map (fun kv => "details_" ++ kv.1)
  ++ (notifDictOf js user).map (fun kv => "notification_" ++ kv.1)
  ++ (userTimeFields.filter (fun f => tsFires user f)).map (fun f => f ++ "_readable")

/-! ## Helper lemmas: dicts -/

lemma dictGet_dictSet_self (d : Rec) (k : String) (v : Val) :
    dictGet (dictSet d k v) k = some v := by
  induction d with
  | nil => simp [dictGet, dictSet]
  | cons kv rest ih =>
    by_cases h : kv.1 = k
    · simp [dictGet, dictSet, h]
    · simp [dictGet, dictSet, h, ih]

lemma dictGet_dictSet_ne (d : Rec) (k k' : String) (v : Val) (h : k' ≠ k) :
    dictGet (dictSet d k v) k' = dictGet d k' := by
  have hne : ¬ (k = k') := fun hh => h hh.symm
  induction d with
  | nil => simp [dictGet, dictSet, hne]
  | cons kv rest ih =>
    by_cases hk : kv.1 = k
    · simp only [dictSet, if_pos hk, dictGet, hk]
      rw [if_neg hne, if_neg hne]
    · simp only [dictSet, if_neg hk, dictGet, ih]

lemma isSome_dictGet_dictSet (d : Rec) (k k' : String) (v : Val)
    (h : (dictGet d k).isSome) : (dictGet (dictSet d k' v) k).isSome := by
  by_cases hk : k = k'
  · subst hk; simp [dictGet_dictSet_self]
  · rwa [dictGet_dictSet_ne _ _ _ _ hk]

/-! ## Helper lemmas: strings -/

lemma string_eq_of_append_eq (p x y : String) (h : p ++ x = p ++ y) : x = y := by
  have hd : (p ++ x).data = (p ++ y).data := congrArg String.data h
  rw [String.data_append, String.data_append] at hd
  exact String.ext (List.append_cancel_left hd)

/-! ## Helper lemmas: timestamp conversion -/

lemma fromtimestampFmt_ok_of_range (ts : Int) (h1 : tsMinValid ≤ ts)
    (h2 : ts ≤ tsMaxValid) :
    fromtimestampFmt ts = TsResult.ok (formatTimestamp ts) := by
  have h1' : (-62135596800 : Int) ≤ ts := h1
  have h2' : ts ≤ (253402300799 : Int) := h2
  unfold fromtimestampFmt timeTMinVal timeTMaxVal tsMinValid tsMaxValid
  rw [if_neg (by omega), if_neg (by omega)]

lemma fromtimestampFmt_ok_eq (ts : Int) (s : String)
    (h : fromtimestampFmt ts = TsResult.ok s) : s = formatTimestamp ts := by
  unfold fromtimestampFmt at h
  split at h
  · cases h
  · split at h
    · cases h
    · exact (TsResult.ok.inj h).symm

lemma tsConvert_cons (f : String) (rest : List String) (r : Rec) :
    tsConvert (f :: rest) r = (tsStep r f).bind (tsConvert rest) := rfl

/-- A timestamp step that returned normally either left the record alone
(missing, falsy, unparsable or out-of-range value) or wrote exactly the
readable key of a firing field. -/
lemma tsStep_some_cases (r : Rec) (f : String) (r1 : Rec)
    (h : tsStep r f = some r1) :
    r1 = r ∨ (tsFires r f = true ∧ ∃ v ts, dictGet r f = some v
      ∧ pyToInt v = some ts
      ∧ r1 = dictSet r (f ++ "_readable") (Val.vstr (formatTimestamp ts))) := by
  unfold tsStep at h
  cases hg : dictGet r f with
  | none =>
    rw [hg] at h
    exact Or.inl (Option.some.inj h).symm
  | some v =>
    rw [hg] at h
    cases ht : pyTruthy v with
    | false =>
      simp only [ht, Bool.false_eq_true, if_false] at h
      exact Or.inl (Option.some.inj h).symm
    | true =>
      simp only [ht, if_true] at h
      cases hi : pyToInt v with
      | none =>
        simp only [hi] at h
        exact Or.inl (Option.some.inj h).symm
      | some ts =>
        simp only [hi] at h
        cases hfmt : fromtimestampFmt ts with
        | ok s =>
          simp only [hfmt] at h
          refine Or.inr ⟨?_, v, ts, rfl, hi, ?_⟩
          · unfold tsFires
            simp [hg, ht, hi, hfmt]
          · rw [← Option.some.inj h, fromtimestampFmt_ok_eq ts s hfmt]
        | valueError =>
          simp only [hfmt] at h
          exact Or.inl (Option.some.inj h).symm
        | overflowError =>
          simp only [hfmt] at h
          cases h

lemma dictGet_tsStep_some_ne (r r1 : Rec) (f k : String) (h : tsStep r f = some r1)
    (hk : k ≠ f ++ "_readable") : dictGet r1 k = dictGet r k := by
  rcases tsStep_some_cases r f r1 h with rfl | ⟨_, v, ts, _, _, hr1⟩
  · rfl
  · subst hr1
    exact dictGet_dictSet_ne _ _ _ _ hk

lemma isSome_dictGet_tsStep_some (r r1 : Rec) (f k : String)
    (h : tsStep r f = some r1) (hs : (dictGet r k).isSome) :
    (dictGet r1 k).isSome := by
  rcases tsStep_some_cases r f r1 h with rfl | ⟨_, v, ts, _, _, hr1⟩
  · exact hs
  · subst hr1
    exact isSome_dictGet_dictSet _ _ _ _ hs

/-- A step on a field that is present, truthy, parsable and in range writes
exactly the formatted string. -/
lemma tsStep_fires_eq (r : Rec) (f : String) (v : Val) (ts : Int)
    (hg : dictGet r f = some v) (ht : pyTruthy v = true) (hi : pyToInt v = some ts)
    (hok : fromtimestampFmt ts = TsResult.ok (formatTimestamp ts)) :
    tsStep r f
      = some (dictSet r (f ++ "_readable") (Val.vstr (formatTimestamp ts))) := by
  unfold tsStep
  rw [hg]
  simp only [ht, if_true, hi, hok]

lemma isSome_dictGet_tsConvert (fields : List String) (r out : Rec) (k : String)
    (hout : tsConvert fields r = some out) (h : (dictGet r k).isSome) :
    (dictGet out k).isSome := by
  induction fields generalizing r with
  | nil =>
    have h2 : r = out := Option.some.inj hout
    rwa [← h2]
  | cons f rest ih =>
    rw [tsConvert_cons] at hout
    cases hstep : tsStep r f with
    | none => rw [hstep] at hout; cases hout
    | some r1 =>
      rw [hstep] at hout
      have hout2 : tsConvert rest r1 = some out := hout
      exact ih r1 hout2 (isSome_dictGet_tsStep_some r r1 f k hstep h)

lemma dictGet_tsConvert_some_ne (fields : List String) (r out : Rec) (k : String)
    (hout : tsConvert fields r = some out)
    (h : ∀ f ∈ fields, k ≠ f ++ "_readable") :
    dictGet out k = dictGet r k := by
  induction fields generalizing r with
  | nil =>
    have h2 : r = out := Option.some.inj hout
    rw [← h2]
  | cons f rest ih =>
    rw [tsConvert_cons] at hout
    cases hstep : tsStep r f with
    | none => rw [hstep] at hout; cases hout
    | some r1 =>
      rw [hstep] at hout
      have hout2 : tsConvert rest r1 = some out := hout
      rw [ih r1 hout2 (fun g hg => h g (List.mem_cons_of_mem f hg)),
        dictGet_tsStep_some_ne r r1 f k hstep (h f (List.mem_cons_self f rest))]

/-! ## Helper lemmas: paginator -/

lemma batch_len_pos (batch : List α) (h : batch.isEmpty = false) :
    1 ≤ batch.length := by
  cases batch <;> simp_all

/-- Fuel independence of the bulk fetch loop: any budget of at least the
remaining target gives the same run (the loop terminates within that many
iterations). -/
lemma bulkLoop_fuel_congr (srv : Nat → ApiResult α) (A off T : Int) :
    ∀ (f1 f2 : Nat) (tf : Int) (acc : List α) (reqs : List (Int × Int)),
      (T - tf).toNat ≤ f1 → (T - tf).toNat ≤ f2 →
      bulkLoop srv A off T f1 tf acc reqs = bulkLoop srv A off T f2 tf acc reqs := by
  intro f1
  induction f1 with
  | zero =>
    intro f2 tf acc reqs h1 h2
    have hT : ¬ tf < T := by omega
    cases f2 with
    | zero => rfl
    | succ f2' => simp only [bulkLoop, if_neg hT]
  | succ f1' ih =>
    intro f2 tf acc reqs h1 h2
    cases f2 with
    | zero =>
      have hT : ¬ tf < T := by omega
      simp only [bulkLoop, if_neg hT]
    | succ f2' =>
      by_cases hT : tf < T
      · simp only [bulkLoop, if_pos hT]
        cases hs : srv reqs.length with
        | failure => rfl
        | success st batch =>
          by_cases hst : st = 200
          · cases he : batch.isEmpty with
            | true => simp [hst, he]
            | false =>
              have hb := batch_len_pos batch he
              by_cases hlt : (batch.length : Int) < min A (T - tf)
              · simp [hst, he, hlt]
              · simp only [hst, if_true, he, Bool.false_eq_true, if_false, if_neg hlt]
                exact ih f2' (tf + batch.length) _ _ (by omega) (by omega)
          · simp [hst]
      · simp only [bulkLoop, if_neg hT]

/-- Request-count bound for the loop when the page cap is exactly 1000 (the
case of the bulk-export caller): starting with remaining target T - tf, at
most ceil((T - tf) / 1000) more requests are issued. -/
lemma bulkLoop_len_bound (srv : Nat → ApiResult α) (off T : Int) :
    ∀ (fuel : Nat) (tf : Int) (acc : List α) (reqs : List (Int × Int)),
      (bulkLoop srv 1000 off T fuel tf acc reqs).requests.length
        ≤ reqs.length + ((T - tf).toNat + 999) / 1000 := by
  intro fuel
  induction fuel with
  | zero => intro tf acc reqs; simp [bulkLoop]
  | succ fuel' ih =>
    intro tf acc reqs
    by_cases hT : tf < T
    · have hceil : 1 ≤ ((T - tf).toNat + 999) / 1000 := by omega
      simp only [bulkLoop, if_pos hT]
      cases hs : srv reqs.length with
      | failure => simp; omega
      | success st batch =>
        by_cases hst : st = 200
        · cases he : batch.isEmpty with
          | true => simp [hst, he]; omega
          | false =>
            have hb := batch_len_pos batch he
            by_cases hlt : (batch.length : Int) < min 1000 (T - tf)
            · simp [hst, he, hlt]; omega
            · simp only [hst, if_true, he, Bool.false_eq_true, if_false, if_neg hlt]
              have h2 := ih (tf + batch.length) (acc ++ batch)
                (reqs ++ [(min 1000 (T - tf), off + tf)])
              simp only [List.length_append, List.length_cons, List.length_nil] at h2 ⊢
              have hmin : min 1000 (T - tf) ≤ (batch.length : Int) := by omega
              omega
        · simp [hst]; omega
    · simp only [bulkLoop, if_neg hT]
      omega

/-- Every request the loop appends carries a limit of min apiLimit remaining;
with apiLimit ≤ 1000 every constructed limit is ≤ 1000. -/
lemma bulkLoop_limit_le (srv : Nat → ApiResult α) (A off T : Int) (hA : A ≤ 1000) :
    ∀ (fuel : Nat) (tf : Int) (acc : List α) (reqs : List (Int × Int)),
      (∀ p ∈ reqs, p.1 ≤ 1000) →
      ∀ p ∈ (bulkLoop srv A off T fuel tf acc reqs).requests, p.1 ≤ 1000 := by
  intro fuel
  induction fuel with
  | zero => intro tf acc reqs hreqs; simpa [bulkLoop] using hreqs
  | succ fuel' ih =>
    intro tf acc reqs hreqs
    by_cases hT : tf < T
    · have hnew : ∀ p ∈ reqs ++ [(min A (T - tf), off + tf)], p.1 ≤ 1000 := by
        intro p hp
        rcases List.mem_append.mp hp with hp | hp
        · exact hreqs p hp
        · simp at hp
          subst hp
          simp only
          omega
      simp only [bulkLoop, if_pos hT]
      cases hs : srv reqs.length with
      | failure => simpa using hnew
      | success st batch =>
        by_cases hst : st = 200
        · cases he : batch.isEmpty with
          | true => simp only [hst, if_true, he]; simpa using hnew
          | false =>
            by_cases hlt : (batch.length : Int) < min A (T - tf)
            · simp only [hst, if_true, he, Bool.false_eq_true, if_false, if_pos hlt]
              simpa using hnew
            · simp only [hst, if_true, he, Bool.false_eq_true, if_false, if_neg hlt]
              exact ih _ _ _ hnew
        · simp only [hst, if_false]
          simpa using hnew
    · simp only [bulkLoop, if_neg hT]
      exact hreqs

/-- The loop only appends to the request trace. -/
lemma bulkLoop_reqs_extend (srv : Nat → ApiResult α) (A off T : Int) :
    ∀ (fuel : Nat) (tf : Int) (acc : List α) (reqs : List (Int × Int)),
      ∃ rest, (bulkLoop srv A off T fuel tf acc reqs).requests = reqs ++ rest := by
  intro fuel
  induction fuel with
  | zero => intro tf acc reqs; exact ⟨[], by simp [bulkLoop]⟩
  | succ fuel' ih =>
    intro tf acc reqs
    by_cases hT : tf < T
    · simp only [bulkLoop, if_pos hT]
      cases hs : srv reqs.length with
      | failure => exact ⟨_, rfl⟩
      | success st batch =>
        by_cases hst : st = 200
        · cases he : batch.isEmpty with
          | true => simp only [hst, if_true, he]; exact ⟨_, rfl⟩
          | false =>
            by_cases hlt : (batch.length : Int) < min A (T - tf)
            · simp only [hst, if_true, he, Bool.false_eq_true, if_false, if_pos hlt]
              exact ⟨_, rfl⟩
            · simp only [hst, if_true, he, Bool.false_eq_true, if_false, if_neg hlt]
              obtain ⟨rest, hrest⟩ := ih (tf + batch.length) (acc ++ batch)
                (reqs ++ [(min A (T - tf), off + tf)])
              exact ⟨(min A (T - tf), off + tf) :: rest, by simpa using hrest⟩
        · simp only [hst, if_false]
          exact ⟨_, rfl⟩
    · simp only [bulkLoop, if_neg hT]
      exact ⟨[], by simp⟩

/-- Every response the loop consumed and moved past (one that is followed by
another request in the trace) was a status-200 success with a nonempty batch
at least as long as the limit that was requested. -/
lemma bulkLoop_mid_success (srv : Nat → ApiResult α) (A off T : Int) :
    ∀ (fuel : Nat) (tf : Int) (acc : List α) (reqs : List (Int × Int)) (j : Nat),
      reqs.length ≤ j →
      j + 1 < (bulkLoop srv A off T fuel tf acc reqs).requests.length →
      ∃ batch, srv j = ApiResult.success 200 batch ∧ batch.isEmpty = false ∧
        ∀ l o, (bulkLoop srv A off T fuel tf acc reqs).requests[j]? = some (l, o) →
          l ≤ (batch.length : Int) := by
  intro fuel
  induction fuel with
  | zero =>
    intro tf acc reqs j hj hlen
    simp only [bulkLoop] at hlen
    omega
  | succ fuel' ih =>
    intro tf acc reqs j hj hlen
    by_cases hT : tf < T
    · simp only [bulkLoop, if_pos hT] at hlen ⊢
      cases hs : srv reqs.length with
      | failure =>
        rw [hs] at hlen
        simp at hlen
        omega
      | success st batch =>
        rw [hs] at hlen
        by_cases hst : st = 200
        · cases he : batch.isEmpty with
          | true =>
            simp only [hst, if_true, he] at hlen
            simp at hlen
            omega
          | false =>
            by_cases hlt : (batch.length : Int) < min A (T - tf)
            · simp only [hst, if_true, he, Bool.false_eq_true, if_false,
                if_pos hlt] at hlen
              simp at hlen
              omega
            · simp only [hst, if_true, he, Bool.false_eq_true, if_false,
                if_neg hlt] at hlen ⊢
              rcases Nat.lt_or_ge j (reqs.length + 1) with hj2 | hj2
              · have hjeq : j = reqs.length := by omega
                subst hjeq
                refine ⟨batch, by rw [hs, hst], he, ?_⟩
                intro l o hlo
                obtain ⟨rest, hrest⟩ := bulkLoop_reqs_extend srv A off T fuel'
                  (tf + batch.length) (acc ++ batch)
                  (reqs ++ [(min A (T - tf), off + tf)])
                rw [hrest] at hlo
                rw [List.getElem?_append_left (by simp)] at hlo
                rw [List.getElem?_concat_length] at hlo
                have : min A (T - tf) = l := by
                  have := Option.some.inj hlo
                  exact congrArg Prod.fst this
                omega
              · obtain ⟨batch', hb1, hb2, hb3⟩ := ih (tf + batch.length) (acc ++ batch)
                  (reqs ++ [(min A (T - tf), off + tf)]) j (by simpa using hj2) hlen
                exact ⟨batch', hb1, hb2, hb3⟩
        · simp only [hst, if_false] at hlen
          simp at hlen
          omega
    · simp only [bulkLoop, if_neg hT] at hlen
      omega

/-- all_articles equals the starting accumulator plus the concatenated
contributions of the responses consumed by the loop (in call order). -/
lemma bulkLoop_articles_eq (srv : Nat → ApiResult α) (A off T : Int) :
    ∀ (fuel : Nat) (tf : Int) (acc : List α) (reqs : List (Int × Int)),
      (bulkLoop srv A off T fuel tf acc reqs).articles
        = acc ++ ((List.range ((bulkLoop srv A off T fuel tf acc reqs).requests.length
            - reqs.length)).map (fun i => pageContrib (srv (reqs.length + i)))).flatten := by
  intro fuel
  induction fuel with
  | zero => intro tf acc reqs; simp [bulkLoop]
  | succ fuel' ih =>
    intro tf acc reqs
    by_cases hT : tf < T
    · simp only [bulkLoop, if_pos hT]
      cases hs : srv reqs.length with
      | failure =>
        simp [pageContrib, hs, List.range_succ]
      | success st batch =>
        by_cases hst : st = 200
        · cases he : batch.isEmpty with
          | true =>
            have hbe : batch = [] := by cases batch with
              | nil => rfl
              | cons a l => simp at he
            simp [pageContrib, hs, hst, hbe, he, List.range_succ]
          | false =>
            by_cases hlt : (batch.length : Int) < min A (T - tf)
            · simp only [hst, if_true, he, Bool.false_eq_true, if_false, if_pos hlt]
              simp [pageContrib, hs, hst, List.range_succ]
            · simp only [hst, if_true, he, Bool.false_eq_true, if_false, if_neg hlt]
              obtain ⟨rest, hrest⟩ := bulkLoop_reqs_extend srv A off T fuel'
                (tf + batch.length) (acc ++ batch) (reqs ++ [(min A (T - tf), off + tf)])
              rw [ih (tf + batch.length) (acc ++ batch)
                (reqs ++ [(min A (T - tf), off + tf)]), hrest]
              simp only [List.length_append, List.length_cons, List.length_nil]
              have e1 : reqs.length + (0 + 1) + rest.length - (reqs.length + (0 + 1))
                  = rest.length := by omega
              have e2 : reqs.length + (0 + 1) + rest.length - reqs.length
                  = rest.length + 1 := by omega
              rw [e1, e2, List.range_succ_eq_map]
              simp only [List.map_cons, List.map_map, List.flatten_cons, Nat.add_zero]
              rw [hs]
              simp only [pageContrib, if_pos hst]
              rw [List.append_assoc]
              congr 1
              congr 1
              congr 1
              apply List.map_congr_left
              intro i hi
              simp only [Function.comp]
              congr 2
              omega
        · simp [pageContrib, hs, hst, List.range_succ]
    · simp only [bulkLoop, if_neg hT]
      simp

/-- Appending the request that the current iteration constructs preserves the
offset invariant (offset = base offset + records contributed so far). -/
lemma reqs_offset_extend (off tf cl : Int) (reqs : List (Int × Int)) (f : Nat → Int)
    (htf : tf = ((List.range reqs.length).map f).sum)
    (hreqs : ∀ j l o, reqs[j]? = some (l, o) →
      o = off + ((List.range j).map f).sum) :
    ∀ j l o, (reqs ++ [(cl, off + tf)])[j]? = some (l, o) →
      o = off + ((List.range j).map f).sum := by
  intro j l o hj
  rcases Nat.lt_trichotomy j reqs.length with hlt | heq | hgt
  · rw [List.getElem?_append_left hlt] at hj
    exact hreqs j l o hj
  · subst heq
    rw [List.getElem?_concat_length] at hj
    have h2 := Option.some.inj hj
    have ho : off + tf = o := congrArg Prod.snd h2
    rw [← ho, htf]
  · have : (reqs ++ [(cl, off + tf)])[j]? = none :=
      List.getElem?_eq_none (by simp; omega)
    rw [this] at hj
    cases hj

/-- Offset invariant for the whole loop: every request in the trace has
offset = base offset + total length of the contributions of the responses
before it. -/
lemma bulkLoop_offset_eq (srv : Nat → ApiResult α) (A off T : Int) :
    ∀ (fuel : Nat) (tf : Int) (acc : List α) (reqs : List (Int × Int)),
      tf = ((List.range reqs.length).map
          (fun i => ((pageContrib (srv i)).length : Int))).sum →
      (∀ j l o, reqs[j]? = some (l, o) →
        o = off + ((List.range j).map
          (fun i => ((pageContrib (srv i)).length : Int))).sum) →
      ∀ j l o, (bulkLoop srv A off T fuel tf acc reqs).requests[j]? = some (l, o) →
        o = off + ((List.range j).map
          (fun i => ((pageContrib (srv i)).length : Int))).sum := by
  intro fuel
  induction fuel with
  | zero =>
    intro tf acc reqs htf hreqs
    simpa [bulkLoop] using hreqs
  | succ fuel' ih =>
    intro tf acc reqs htf hreqs
    by_cases hT : tf < T
    · simp only [bulkLoop, if_pos hT]
      cases hs : srv reqs.length with
      | failure =>
        exact reqs_offset_extend off tf _ reqs _ htf hreqs
      | success st batch =>
        by_cases hst : st = 200
        · cases he : batch.isEmpty with
          | true =>
            simp only [hst, if_true, he]
            exact reqs_offset_extend off tf _ reqs _ htf hreqs
          | false =>
            by_cases hlt : (batch.length : Int) < min A (T - tf)
            · simp only [hst, if_true, he, Bool.false_eq_true, if_false, if_pos hlt]
              exact reqs_offset_extend off tf _ reqs _ htf hreqs
            · simp only [hst, if_true, he, Bool.false_eq_true, if_false, if_neg hlt]
              refine ih (tf + batch.length) (acc ++ batch)
                (reqs ++ [(min A (T - tf), off + tf)]) ?_
                (reqs_offset_extend off tf _ reqs _ htf hreqs)
              simp only [List.length_append, List.length_cons, List.length_nil]
              rw [show reqs.length + (0 + 1) = reqs.length + 1 by omega, List.range_succ]
              simp [htf, pageContrib, hs, hst]
        · simp only [hst, if_false]
          exact reqs_offset_extend off tf _ reqs _ htf hreqs
    · simp only [bulkLoop, if_neg hT]
      exact hreqs

/-! ## Helper lemmas: dict-level paginator (frame property) -/

lemma getElem?_heapSetKey_ne (h : Heap) (a b : Nat) (k : String) (v : Val)
    (hne : a ≠ b) : (heapSetKey h a k v)[b]? = h[b]? := by
  unfold heapSetKey heapSet
  exact List.getElem?_set_ne hne

lemma length_heapSetKey (h : Heap) (a : Nat) (k : String) (v : Val) :
    (heapSetKey h a k v).length = h.length := by
  simp [heapSetKey, heapSet]

/-- The dict-level loop never writes the cell of the caller dict: every write
goes to the freshly allocated copy of the iteration (address = heap length at
allocation time, which is ≥ 1 when the caller dict occupies address 0). -/
lemma bulkLoopState_frame (srv : Nat → ApiResult α) (sk : String) (A off T : Int) :
    ∀ (fuel : Nat) (tf : Int) (ci : Nat) (h : Heap) (acc : List α),
      1 ≤ h.length →
      (bulkLoopState srv sk 0 A off T fuel tf ci h acc).1[0]? = h[0]? := by
  intro fuel
  induction fuel with
  | zero => intro tf ci h acc hh; rfl
  | succ fuel' ih =>
    intro tf ci h acc hh
    by_cases hT : tf < T
    · simp only [bulkLoopState, if_pos hT]
      -- the copy address is h.length for every one of the three writes
      have e0 : (h ++ [heapGet h 0])[0]? = h[0]? :=
        List.getElem?_append_left (by omega)
      have key1 := getElem?_heapSetKey_ne (h ++ [heapGet h 0]) h.length 0
        "limit" (Val.vint (min A (T - tf))) (by omega)
      have key2 := getElem?_heapSetKey_ne
        (heapSetKey (h ++ [heapGet h 0]) h.length "limit" (Val.vint (min A (T - tf))))
        h.length 0 "offset" (Val.vint (off + tf)) (by omega)
      have key3 := getElem?_heapSetKey_ne
        (heapSetKey (heapSetKey (h ++ [heapGet h 0]) h.length "limit"
          (Val.vint (min A (T - tf)))) h.length "offset" (Val.vint (off + tf)))
        h.length 0 "server_key" (Val.vstr sk) (by omega)
      have hall : (heapSetKey (heapSetKey (heapSetKey (h ++ [heapGet h 0]) h.length
          "limit" (Val.vint (min A (T - tf)))) h.length "offset"
          (Val.vint (off + tf))) h.length "server_key" (Val.vstr sk))[0]? = h[0]? := by
        rw [key3, key2, key1, e0]
      have hlen4 : (heapSetKey (heapSetKey (heapSetKey (h ++ [heapGet h 0]) h.length
          "limit" (Val.vint (min A (T - tf)))) h.length "offset"
          (Val.vint (off + tf))) h.length "server_key" (Val.vstr sk)).length
          = h.length + 1 := by
        rw [length_heapSetKey, length_heapSetKey, length_heapSetKey]; simp
      cases hs : srv ci with
      | failure => exact hall
      | success st batch =>
        by_cases hst : st = 200
        · cases he : batch.isEmpty with
          | true => simp only [hst, if_true, he]; exact hall
          | false =>
            by_cases hlt : (batch.length : Int) < min A (T - tf)
            · simp only [hst, if_true, he, Bool.false_eq_true, if_false, if_pos hlt]
              exact hall
            · simp only [hst, if_true, he, Bool.false_eq_true, if_false, if_neg hlt]
              rw [ih _ _ _ _ (by rw [hlen4]; omega)]
              exact hall
        · simp only [hst, if_false]
          exact hall
    · simp only [bulkLoopState, if_neg hT]

/-! ## Helper lemmas: transport -/

/-- Reaching attempt j with only RequestExceptions before it and a
JSONDecodeError at j ends the loop at once with None after j + 1 attempts. -/
lemma apiLoop_decode_stops (attempts : Nat → AttemptOutcome β) (retries : Nat) :
    ∀ (fuel attempt j : Nat), attempt + fuel = retries → attempt ≤ j → j < retries →
      attempts j = AttemptOutcome.decodeError →
      (∀ i, attempt ≤ i → i < j → attempts i = AttemptOutcome.requestException) →
      apiLoop attempts retries attempt fuel = (none, j + 1) := by
  intro fuel
  induction fuel with
  | zero =>
    intro attempt j hfull hle hlt hdec hpre
    omega
  | succ fuel' ih =>
    intro attempt j hfull hle hlt hdec hpre
    rcases Nat.eq_or_lt_of_le hle with heq | hltj
    · subst heq
      simp [apiLoop, hdec]
    · have hre : attempts attempt = AttemptOutcome.requestException :=
        hpre attempt (le_refl _) hltj
      have hne : ¬ attempt = retries - 1 := by omega
      simp only [apiLoop, hre, if_neg hne]
      exact ih (attempt + 1) j (by omega) (by omega) hlt hdec
        (fun i h1 h2 => hpre i (by omega) h2)

/-! ## Helper lemmas: normalizer stages -/

lemma dictGet_prefixFold_ne (pre : String) (d : List (String × Val)) (k : String)
    (h : ∀ kv ∈ d, pre ++ kv.1 ≠ k) (p : Rec) :
    dictGet (d.foldl (fun acc kv => dictSet acc (pre ++ kv.1) kv.2) p) k
      = dictGet p k := by
  induction d generalizing p with
  | nil => rfl
  | cons kv rest ih =>
    simp only [List.foldl]
    rw [ih (fun x hx => h x (List.mem_cons_of_mem kv hx)),
      dictGet_dictSet_ne _ _ _ _ (fun he => h kv (List.mem_cons_self kv rest) he.symm)]

lemma isSome_dictGet_prefixFold (pre : String) (d : List (String × Val)) (k : String)
    (p : Rec) (h : (dictGet p k).isSome) :
    (dictGet (d.foldl (fun acc kv => dictSet acc (pre ++ kv.1) kv.2) p) k).isSome := by
  induction d generalizing p with
  | nil => exact h
  | cons kv rest ih =>
    simp only [List.foldl]
    exact ih _ (isSome_dictGet_dictSet _ _ _ _ h)

lemma dictGet_authorFold_ne (d : List (String × Val)) (k : String)
    (h : ∀ kv ∈ d, ¬(kv.1 = "username" ∨ kv.1 = "email") → "author_" ++ kv.1 ≠ k)
    (p : Rec) :
    dictGet (d.foldl (fun acc kv =>
      if kv.1 = "username" || kv.1 = "email" then acc
      else dictSet acc ("author_" ++ kv.1) kv.2) p) k = dictGet p k := by
  induction d generalizing p with
  | nil => rfl
  | cons kv rest ih =>
    simp only [List.foldl]
    by_cases hskip : kv.1 = "username" ∨ kv.1 = "email"
    · rw [if_pos (by simpa using hskip)]
      exact ih (fun x hx => h x (List.mem_cons_of_mem kv hx)) p
    · rw [if_neg (by simpa using hskip)]
      rw [ih (fun x hx => h x (List.mem_cons_of_mem kv hx)),
        dictGet_dictSet_ne _ _ _ _
          (fun he => h kv (List.mem_cons_self kv rest) hskip he.symm)]

lemma isSome_dictGet_authorFold (d : List (String × Val)) (k : String) (p : Rec)
    (h : (dictGet p k).isSome) :
    (dictGet (d.foldl (fun acc kv =>
      if kv.1 = "username" || kv.1 = "email" then acc
      else dictSet acc ("author_" ++ kv.1) kv.2) p) k).isSome := by
  induction d generalizing p with
  | nil => exact h
  | cons kv rest ih =>
    simp only [List.foldl]
    by_cases hskip : (kv.1 = "username" || kv.1 = "email") = true
    · rw [if_pos hskip]
      exact ih p h
    · rw [if_neg hskip]
      exact ih _ (isSome_dictGet_dictSet _ _ _ _ h)

lemma dictGet_categoryStage_ne (article p : Rec) (k : String)
    (h4 : k ≠ "category_name") (h5 : k ≠ "category_id") :
    dictGet (categoryStage article p) k = dictGet p k := by
  unfold categoryStage
  cases hcat : dictGet article "category" with
  | none => rfl
  | some v =>
    cases v with
    | vdict cd => rw [dictGet_dictSet_ne _ _ _ _ h5, dictGet_dictSet_ne _ _ _ _ h4]
    | vnull => rfl
    | vbool b => rfl
    | vint n => rfl
    | vstr s => rfl

lemma isSome_dictGet_categoryStage (article p : Rec) (k : String)
    (h : (dictGet p k).isSome) : (dictGet (categoryStage article p) k).isSome := by
  unfold categoryStage
  cases hcat : dictGet article "category" with
  | none => exact h
  | some v =>
    cases v with
    | vdict cd => exact isSome_dictGet_dictSet _ _ _ _ (isSome_dictGet_dictSet _ _ _ _ h)
    | vnull => exact h
    | vbool b => exact h
    | vint n => exact h
    | vstr s => exact h

lemma dictGet_authorStage_ne (js : String → Option Val) (article : Rec) (k : String)
    (h1 : k ≠ "author_username") (h2 : k ≠ "author_email")
    (h3 : ∀ x, "author_" ++ x ≠ k) :
    dictGet (authorStage js article) k = dictGet article k := by
  unfold authorStage
  have hp1 : ∀ i1 i2 : Val,
      dictGet (dictSet (dictSet article "author_username" i1) "author_email" i2) k
        = dictGet article k := by
    intro i1 i2
    rw [dictGet_dictSet_ne _ _ _ _ h2, dictGet_dictSet_ne _ _ _ _ h1]
  cases hauth : (dictGet article "author").getD (Val.vdict []) with
  | vdict d => rw [dictGet_authorFold_ne d k (fun kv _ _ => h3 kv.1) _, hp1]
  | vnull => exact hp1 _ _
  | vbool b => exact hp1 _ _
  | vint n => exact hp1 _ _
  | vstr s => exact hp1 _ _

lemma isSome_dictGet_authorStage (js : String → Option Val) (article : Rec)
    (k : String) (h : (dictGet article k).isSome) :
    (dictGet (authorStage js article) k).isSome := by
  unfold authorStage
  have hp1 : ∀ i1 i2 : Val,
      (dictGet (dictSet (dictSet article "author_username" i1) "author_email" i2)
        k).isSome :=
    fun i1 i2 => isSome_dictGet_dictSet _ _ _ _ (isSome_dictGet_dictSet _ _ _ _ h)
  cases hauth : (dictGet article "author").getD (Val.vdict []) with
  | vdict d => exact isSome_dictGet_authorFold d k _ (hp1 _ _)
  | vnull => exact hp1 _ _
  | vbool b => exact hp1 _ _
  | vint n => exact hp1 _ _
  | vstr s => exact hp1 _ _

/-- The author stage always leaves author_username holding the first component
of extract_author_info (the flatten loop skips the username and email keys,
so it can never produce the author_username key again). -/
lemma dictGet_authorStage_username (js : String → Option Val) (article : Rec) :
    dictGet (authorStage js article) "author_username"
      = some (extract_author_info js
          ((dictGet article "author").getD (Val.vdict []))).1 := by
  unfold authorStage
  have hp1 : ∀ i1 i2 : Val,
      dictGet (dictSet (dictSet article "author_username" i1) "author_email" i2)
        "author_username" = some i1 := by
    intro i1 i2
    rw [dictGet_dictSet_ne _ _ _ _ (by decide), dictGet_dictSet_self]
  cases hauth : (dictGet article "author").getD (Val.vdict []) with
  | vdict d =>
    rw [dictGet_authorFold_ne d _ ?_ _, hp1]
    intro kv _ hkv he
    apply hkv
    left
    exact string_eq_of_append_eq "author_" kv.1 "username" (by rw [he]; rfl)
  | vnull => exact hp1 _ _
  | vbool b => exact hp1 _ _
  | vint n => exact hp1 _ _
  | vstr s => exact hp1 _ _

/-- Same for author_email. -/
lemma dictGet_authorStage_email (js : String → Option Val) (article : Rec) :
    dictGet (authorStage js article) "author_email"
      = some (extract_author_info js
          ((dictGet article "author").getD (Val.vdict []))).2 := by
  unfold authorStage
  have hp1 : ∀ i1 i2 : Val,
      dictGet (dictSet (dictSet article "author_username" i1) "author_email" i2)
        "author_email" = some i2 := by
    intro i1 i2
    rw [dictGet_dictSet_self]
  cases hauth : (dictGet article "author").getD (Val.vdict []) with
  | vdict d =>
    rw [dictGet_authorFold_ne d _ ?_ _, hp1]
    intro kv _ hkv he
    apply hkv
    right
    exact string_eq_of_append_eq "author_" kv.1 "email" (by rw [he]; rfl)
  | vnull => exact hp1 _ _
  | vbool b => exact hp1 _ _
  | vint n => exact hp1 _ _
  | vstr s => exact hp1 _ _

/-- extract_author_info on a nonempty dict reads the username and email keys
with default "". -/
lemma extract_author_info_dict (js : String → Option Val) (d : List (String × Val))
    (hd : d ≠ []) :
    extract_author_info js (Val.vdict d)
      = ((dictGet d "username").getD (Val.vstr ""),
         (dictGet d "email").getD (Val.vstr "")) := by
  have ht : pyTruthy (Val.vdict d) = true := by
    cases d with
    | nil => exact absurd rfl hd
    | cons a l => simp [pyTruthy]
  unfold extract_author_info
  rw [ht]
  simp

lemma dictGet_detailsStage_ne (user : Rec) (k : String)
    (h : ∀ x, "details_" ++ x ≠ k) :
    dictGet (detailsStage user) k = dictGet user k := by
  unfold detailsStage
  cases hdet : dictGet user "details" with
  | none => rfl
  | some v =>
    cases v with
    | vdict d => exact dictGet_prefixFold_ne "details_" d k (fun kv _ => h kv.1) user
    | vnull => rfl
    | vbool b => rfl
    | vint n => rfl
    | vstr s => rfl

lemma isSome_dictGet_detailsStage (user : Rec) (k : String)
    (h : (dictGet user k).isSome) : (dictGet (detailsStage user) k).isSome := by
  unfold detailsStage
  cases hdet : dictGet user "details" with
  | none => exact h
  | some v =>
    cases v with
    | vdict d => exact isSome_dictGet_prefixFold "details_" d k user h
    | vnull => exact h
    | vbool b => exact h
    | vint n => exact h
    | vstr s => exact h

lemma dictGet_notificationStage_ne (js : String → Option Val) (user p out : Rec)
    (k : String) (hout : notificationStage js user p = some out)
    (h : ∀ x, "notification_" ++ x ≠ k) :
    dictGet out k = dictGet p k := by
  unfold notificationStage at hout
  cases hns : dictGet user "notification_settings" with
  | none =>
    rw [hns] at hout
    cases hout
    rfl
  | some v =>
    cases v with
    | vstr s =>
      rw [hns] at hout
      cases hjs : js s with
      | none =>
        simp only [hjs] at hout
        cases hout
        rfl
      | some w =>
        simp only [hjs] at hout
        cases w with
        | vdict d =>
          cases hout
          exact dictGet_prefixFold_ne "notification_" d k (fun kv _ => h kv.1) p
        | vnull => cases hout
        | vbool b => cases hout
        | vint n => cases hout
        | vstr s2 => cases hout
    | vdict d =>
      rw [hns] at hout
      cases hout
      exact dictGet_prefixFold_ne "notification_" d k (fun kv _ => h kv.1) p
    | vnull => rw [hns] at hout; cases hout
    | vbool b => rw [hns] at hout; cases hout
    | vint n => rw [hns] at hout; cases hout

lemma isSome_dictGet_notificationStage (js : String → Option Val) (user p out : Rec)
    (k : String) (hout : notificationStage js user p = some out)
    (h : (dictGet p k).isSome) : (dictGet out k).isSome := by
  unfold notificationStage at hout
  cases hns : dictGet user "notification_settings" with
  | none =>
    rw [hns] at hout
    cases hout
    exact h
  | some v =>
    cases v with
    | vstr s =>
      rw [hns] at hout
      cases hjs : js s with
      | none =>
        simp only [hjs] at hout
        cases hout
        exact h
      | some w =>
        simp only [hjs] at hout
        cases w with
        | vdict d =>
          cases hout
          exact isSome_dictGet_prefixFold "notification_" d k p h
        | vnull => cases hout
        | vbool b => cases hout
        | vint n => cases hout
        | vstr s2 => cases hout
    | vdict d =>
      rw [hns] at hout
      cases hout
      exact isSome_dictGet_prefixFold "notification_" d k p h
    | vnull => rw [hns] at hout; cases hout
    | vbool b => rw [hns] at hout; cases hout
    | vint n => rw [hns] at hout; cases hout

lemma tsFires_eq_of_get_eq (r r' : Rec) (f : String)
    (h : dictGet r f = dictGet r' f) : tsFires r f = tsFires r' f := by
  unfold tsFires
  rw [h]

/-- Preservation through the whole timestamp loop: a key that is not the
readable key of any firing field is untouched.  The separation hypothesis
(no recognized field is the readable key of another) holds for the concrete
field lists of the program. -/
lemma dictGet_tsConvert_not_fired (fields : List String) (r out : Rec) (k : String)
    (hout : tsConvert fields r = some out)
    (hsep : ∀ f ∈ fields, ∀ g ∈ fields, g ≠ f ++ "_readable")
    (h : ∀ f ∈ fields, tsFires r f = true → k ≠ f ++ "_readable") :
    dictGet out k = dictGet r k := by
  induction fields generalizing r with
  | nil =>
    have h2 : r = out := Option.some.inj hout
    rw [← h2]
  | cons f rest ih =>
    rw [tsConvert_cons] at hout
    cases hstep : tsStep r f with
    | none => rw [hstep] at hout; cases hout
    | some r1 =>
      rw [hstep] at hout
      have hout2 : tsConvert rest r1 = some out := hout
      rcases tsStep_some_cases r f r1 hstep with rfl | ⟨hfire, v, ts, hv, hi, hr1⟩
      · exact ih r1 hout2
          (fun a ha b hb => hsep a (List.mem_cons_of_mem f ha) b (List.mem_cons_of_mem f hb))
          (fun a ha hfa => h a (List.mem_cons_of_mem f ha) hfa)
      · subst hr1
        have hk : k ≠ f ++ "_readable" := h f (List.mem_cons_self f rest) hfire
        have hfires_pres : ∀ g ∈ rest,
            tsFires (dictSet r (f ++ "_readable") (Val.vstr (formatTimestamp ts))) g
              = tsFires r g := by
          intro g hg
          exact tsFires_eq_of_get_eq _ _ _
            (dictGet_dictSet_ne _ _ _ _
              (hsep f (List.mem_cons_self f rest) g (List.mem_cons_of_mem f hg)))
        rw [ih _ hout2
            (fun a ha b hb => hsep a (List.mem_cons_of_mem f ha) b (List.mem_cons_of_mem f hb))
            (fun a ha hfa => h a (List.mem_cons_of_mem f ha)
              (by rw [← hfires_pres a ha]; exact hfa)),
          dictGet_dictSet_ne _ _ _ _ hk]

/-- A nonempty prefix whose first character differs from the first character
of t can never produce t by appending. -/
lemma prefix_append_ne (p t : String) (hp : p.data ≠ [])
    (hh : p.data.head? ≠ t.data.head?) : ∀ x, p ++ x ≠ t := by
  intro x h
  have hd : (p ++ x).data = t.data := congrArg String.data h
  rw [String.data_append] at hd
  cases hpd : p.data with
  | nil => exact hp hpd
  | cons c cs =>
    apply hh
    rw [hpd, ← hd, hpd]
    rfl

/-! ## Claims -/

/-- Claim C1: for every run of bulk_fetch_articles, with any target total and
any base request, every request it constructs has a limit of at most 1000. -/
theorem claim_C1 {α : Type} (srv : Nat → ApiResult α) (baseLimit baseOffset : Option Int)
    (totalLimit : Int) (p : Int × Int)
    (hp : p ∈ (bulk_fetch_articles srv baseLimit baseOffset totalLimit).requests) :
    p.1 ≤ 1000 := by
  unfold bulk_fetch_articles at hp
  exact bulkLoop_limit_le srv (min 1000 (baseLimit.getD 1000)) (baseOffset.getD 0)
    totalLimit (min_le_left _ _) totalLimit.toNat 0 [] [] (by simp) p hp

/-- Witness for claim C1 at a concrete run (target 1, failing server): the
single constructed request has limit 1 ≤ 1000. -/
theorem claim_C1_witness :
    ((1 : Int), (0 : Int)) ∈ (bulk_fetch_articles
      (fun _ => (ApiResult.failure : ApiResult Unit)) none none 1).requests
    ∧ ((1 : Int), (0 : Int)).1 ≤ 1000 :=
  ⟨by decide, claim_C1 (fun _ => (ApiResult.failure : ApiResult Unit)) none none 1
    ((1 : Int), (0 : Int)) (by decide)⟩

/-- Claim C2 counterexample: with a base request whose limit field is 1 and a
server that always returns exactly the requested count, the run for target 3
issues 3 requests, exceeding ceil(3 / 1000) + 1 = 2.  (The code caps every
page at min(1000, post_data limit), src/app.py line 95, so a small base limit
forces more iterations than the claimed bound.) -/
theorem claim_C2_cex :
    ¬ ((bulk_fetch_articles (fun _ => (ApiResult.success 200 [()] : ApiResult Unit))
        (some 1) none 3).requests.length ≤ pagesNeeded 3 + 1) := by
  decide

/-- Claim C2 (amended): for every target total, base request and server
behaviour the loop terminates -- its run is unchanged under any iteration
budget of at least the target -- and, whenever the base request carries no
limit field or a limit of at least 1000 (as the bulk-export caller builds it),
it issues at most ceil(targetTotal / 1000) + 1 requests. -/
theorem claim_C2 {α : Type} (srv : Nat → ApiResult α) (baseLimit baseOffset : Option Int)
    (totalLimit : Int) (fuel : Nat) (hfuel : totalLimit.toNat ≤ fuel) :
    bulkLoop srv (min 1000 (baseLimit.getD 1000)) (baseOffset.getD 0) totalLimit
        fuel 0 [] []
      = bulk_fetch_articles srv baseLimit baseOffset totalLimit
    ∧ ((∀ b, baseLimit = some b → (1000 : Int) ≤ b) →
        (bulk_fetch_articles srv baseLimit baseOffset totalLimit).requests.length
          ≤ pagesNeeded totalLimit + 1) := by
  constructor
  · exact bulkLoop_fuel_congr srv _ _ totalLimit fuel totalLimit.toNat 0 [] []
      (by omega) (by omega)
  · intro hb
    have hA : min 1000 (baseLimit.getD 1000) = 1000 := by
      cases baseLimit with
      | none => simp
      | some b =>
        have := hb b rfl
        simp only [Option.getD]
        omega
    unfold bulk_fetch_articles
    rw [hA]
    have hbd := bulkLoop_len_bound srv (baseOffset.getD 0) totalLimit
      totalLimit.toNat 0 [] []
    simp only [List.length_nil, Int.sub_zero, Nat.zero_add] at hbd
    unfold pagesNeeded
    omega

/-- Witness for claim C2 at a concrete run (target 5, no base limit, failing
server): budget 7 gives the same run, and at most ceil(5/1000) + 1 = 2
requests are issued. -/
theorem claim_C2_witness :
    (bulkLoop (fun _ => (ApiResult.failure : ApiResult Unit))
        (min 1000 ((none : Option Int).getD 1000)) ((none : Option Int).getD 0) 5 7 0 [] []
      = bulk_fetch_articles (fun _ => (ApiResult.failure : ApiResult Unit)) none none 5)
    ∧ (bulk_fetch_articles (fun _ => (ApiResult.failure : ApiResult Unit))
        none none 5).requests.length ≤ pagesNeeded 5 + 1 := by
  have h := claim_C2 (fun _ => (ApiResult.failure : ApiResult Unit)) none none 5 7
    (by decide)
  exact ⟨h.1, h.2 (fun b hb => by cases hb)⟩

/-- Claim C3: if the response to request k is a status-200 success whose batch
is empty or shorter than the limit requested for that page, then no request is
issued after it: the trace ends at exactly k + 1 requests, even when the
accumulated count is below the target. -/
theorem claim_C3 {α : Type} (srv : Nat → ApiResult α) (baseLimit baseOffset : Option Int)
    (totalLimit : Int) (k : Nat) (l o st : Int) (batch : List α)
    (hreq : (bulk_fetch_articles srv baseLimit baseOffset totalLimit).requests[k]?
      = some (l, o))
    (hsrv : srv k = ApiResult.success st batch) (hst : st = 200)
    (hshort : batch.isEmpty = true ∨ (batch.length : Int) < l) :
    (bulk_fetch_articles srv baseLimit baseOffset totalLimit).requests.length = k + 1 := by
  unfold bulk_fetch_articles at hreq ⊢
  have hk : k < (bulkLoop srv (min 1000 (baseLimit.getD 1000)) (baseOffset.getD 0)
      totalLimit totalLimit.toNat 0 [] []).requests.length :=
    (List.getElem?_eq_some.mp hreq).1
  by_contra hne
  have hk1 : k + 1 < (bulkLoop srv (min 1000 (baseLimit.getD 1000)) (baseOffset.getD 0)
      totalLimit totalLimit.toNat 0 [] []).requests.length := by omega
  obtain ⟨batch', hb1, hb2, hb3⟩ := bulkLoop_mid_success srv
    (min 1000 (baseLimit.getD 1000)) (baseOffset.getD 0) totalLimit
    totalLimit.toNat 0 [] [] k (by simp) hk1
  subst hst
  rw [hsrv] at hb1
  have hbatch : batch = batch' := by injection hb1
  subst hbatch
  rcases hshort with hempty | hlt
  · rw [hempty] at hb2
    cases hb2
  · have := hb3 l o hreq
    omega

/-- Witness for claim C3 at a concrete run: request 0 asks for 5 records, the
server returns a 200 success with only 2, and the trace stops at 1 request. -/
theorem claim_C3_witness :
    (bulk_fetch_articles
      (fun n => if n = 0 then ApiResult.success 200 [(), ()] else ApiResult.failure)
      none none 5).requests.length = 0 + 1 :=
  claim_C3 (fun n => if n = 0 then ApiResult.success 200 [(), ()] else ApiResult.failure)
    none none 5 0 5 0 200 [(), ()] (by decide) (by decide) rfl (Or.inr (by decide))

/-- Claim C4: if pages 1..k succeed with full batches and page k + 1 fails
(no payload, or a payload with a non-200 status), bulk_fetch_articles returns
exactly the concatenation of the records of the successful pages, in order;
nothing is discarded and the function returns normally. -/
theorem claim_C4 {α : Type} (srv : Nat → ApiResult α) (baseLimit baseOffset : Option Int)
    (totalLimit : Int) (k : Nat) (B : Nat → List α)
    (hprev : ∀ j, j < k → srv j = ApiResult.success 200 (B j))
    (hfail : srv k = ApiResult.failure
      ∨ ∃ st batch, srv k = ApiResult.success st batch ∧ st ≠ 200)
    (hlen : (bulk_fetch_articles srv baseLimit baseOffset totalLimit).requests.length
      = k + 1) :
    (bulk_fetch_articles srv baseLimit baseOffset totalLimit).articles
      = ((List.range k).map B).flatten := by
  unfold bulk_fetch_articles at hlen ⊢
  have hart := bulkLoop_articles_eq srv (min 1000 (baseLimit.getD 1000))
    (baseOffset.getD 0) totalLimit totalLimit.toNat 0 [] []
  rw [hlen] at hart
  simp only [List.length_nil, Nat.sub_zero, Nat.zero_add, List.nil_append] at hart
  rw [hart, List.range_succ, List.map_append, List.flatten_append]
  have hlast : pageContrib (srv k) = [] := by
    rcases hfail with hf | ⟨st, batch, hsb, hstne⟩
    · rw [hf]; rfl
    · rw [hsb]; simp [pageContrib, hstne]
  have hmap : (List.range k).map (fun i => pageContrib (srv i)) = (List.range k).map B := by
    apply List.map_congr_left
    intro i hi
    rw [hprev i (List.mem_range.mp hi)]
    simp [pageContrib]
  simp [hlast, hmap]

/-- Witness for claim C4 at a concrete run: page 1 returns 2 records (full),
page 2 fails, and the returned articles are exactly the records of page 1. -/
theorem claim_C4_witness :
    (bulk_fetch_articles
      (fun n => if n = 0 then ApiResult.success 200 [7, 8] else ApiResult.failure)
      (some 2) none 3).articles
      = ((List.range 1).map (fun _ => ([7, 8] : List Nat))).flatten :=
  claim_C4 (fun n => if n = 0 then ApiResult.success 200 [7, 8] else ApiResult.failure)
    (some 2) none 3 1 (fun _ => [7, 8])
    (by intro j hj; interval_cases j; decide)
    (Or.inl (by decide)) (by decide)

/-- One full iteration of the bulk fetch loop (200 success, nonempty batch at
least as long as the page limit) as a rewrite step. -/
lemma bulkLoop_step_full (srv : Nat → ApiResult α) (A off T : Int) (fuel : Nat)
    (tf : Int) (acc : List α) (reqs : List (Int × Int)) (st : Int) (batch : List α)
    (hT : tf < T) (hs : srv reqs.length = ApiResult.success st batch) (hst : st = 200)
    (hne : batch.isEmpty = false) (hfull : ¬ ((batch.length : Int) < min A (T - tf))) :
    bulkLoop srv A off T (fuel + 1) tf acc reqs
      = bulkLoop srv A off T fuel (tf + batch.length) (acc ++ batch)
          (reqs ++ [(min A (T - tf), off + tf)]) := by
  simp [bulkLoop, hT, hs, hst, hne, hfull]

/-- The loop exits as soon as the accumulated count reaches the target. -/
lemma bulkLoop_stop (srv : Nat → ApiResult α) (A off T : Int) (fuel : Nat)
    (tf : Int) (acc : List α) (reqs : List (Int × Int)) (hT : ¬ tf < T) :
    bulkLoop srv A off T (fuel + 1) tf acc reqs = ⟨acc, reqs⟩ := by
  simp [bulkLoop, hT]

/-- The end-to-end scenario run of the spec, computed: 3 calls at offsets
0, 1000, 2000 with limits 1000, 1000, 500, accumulating 1000+1000+500
records. -/
lemma scenarioRun_eq :
    bulk_fetch_articles scenarioSrv (some 1000) (some 0) 2500
      = ⟨List.replicate 2500 (), [(1000, 0), (1000, 1000), (500, 2000)]⟩ := by
  show bulkLoop scenarioSrv 1000 0 2500 2500 0 [] [] = _
  rw [show (2500 : Nat) = 2499 + 1 from rfl,
    bulkLoop_step_full scenarioSrv 1000 0 2500 2499 0 [] [] 200 (List.replicate 1000 ())
      (by norm_num) rfl rfl
      (by rw [show (1000 : Nat) = 999 + 1 from rfl, List.replicate_succ]; rfl)
      (by simp [min_def])]
  simp only [List.length_replicate, List.nil_append]
  norm_num
  rw [show (2499 : Nat) = 2498 + 1 from rfl,
    bulkLoop_step_full scenarioSrv 1000 0 2500 2498 1000 (List.replicate 1000 ())
      [(1000, 0)] 200 (List.replicate 1000 ())
      (by norm_num) rfl rfl
      (by rw [show (1000 : Nat) = 999 + 1 from rfl, List.replicate_succ]; rfl)
      (by simp [min_def])]
  simp only [List.length_replicate, List.nil_append]
  norm_num
  rw [show (2498 : Nat) = 2497 + 1 from rfl,
    bulkLoop_step_full scenarioSrv 1000 0 2500 2497 2000
      (List.replicate 2000 ())
      [(1000, 0), (1000, 1000)] 200 (List.replicate 500 ())
      (by norm_num) rfl rfl
      (by rw [show (500 : Nat) = 499 + 1 from rfl, List.replicate_succ]; rfl)
      (by simp [min_def])]
  simp only [List.length_replicate, List.nil_append]
  norm_num
  rw [show (2497 : Nat) = 2496 + 1 from rfl,
    bulkLoop_stop scenarioSrv 1000 0 2500 2496 2500 _ _ (by norm_num)]

/-- Claim C5: every request is built with offset equal to the base offset plus
the number of records fetched before it, and the end-to-end scenario holds:
target 2500 against a server returning exactly the requested count per call
(1000, 1000, 500) yields 2500 records assembled from exactly 3 calls at
offsets 0, 1000 and 2000. -/
theorem claim_C5 {α : Type} (srv : Nat → ApiResult α) (baseLimit baseOffset : Option Int)
    (totalLimit : Int) (j : Nat) (l o : Int)
    (hreq : (bulk_fetch_articles srv baseLimit baseOffset totalLimit).requests[j]?
      = some (l, o)) :
    (o = baseOffset.getD 0 + ((List.range j).map
        (fun i => ((pageContrib (srv i)).length : Int))).sum)
    ∧ (bulk_fetch_articles scenarioSrv (some 1000) (some 0) 2500).requests
        = [(1000, 0), (1000, 1000), (500, 2000)]
    ∧ (bulk_fetch_articles scenarioSrv (some 1000) (some 0) 2500).articles.length
        = 2500 := by
  refine ⟨?_, by rw [scenarioRun_eq], by rw [scenarioRun_eq]; simp⟩
  unfold bulk_fetch_articles at hreq
  exact bulkLoop_offset_eq srv (min 1000 (baseLimit.getD 1000)) (baseOffset.getD 0)
    totalLimit totalLimit.toNat 0 [] [] (by simp)
    (by intro a b c h; simp at h) j l o hreq

/-- Witness for claim C5 at a concrete run (target 1, failing server): the
only request has offset 0 = base offset + 0 records fetched, and the scenario
equalities hold. -/
theorem claim_C5_witness :
    ((0 : Int) = (none : Option Int).getD 0 + ((List.range 0).map
        (fun i => ((pageContrib ((fun _ => (ApiResult.failure : ApiResult Unit)) i)).length
          : Int))).sum)
    ∧ (bulk_fetch_articles scenarioSrv (some 1000) (some 0) 2500).requests
        = [(1000, 0), (1000, 1000), (500, 2000)]
    ∧ (bulk_fetch_articles scenarioSrv (some 1000) (some 0) 2500).articles.length
        = 2500 :=
  claim_C5 (fun _ => (ApiResult.failure : ApiResult Unit)) none none 1 0 1 0 (by decide)

/-- Claim C6: inside make_api_request, a malformed (undecodable) response ends
the call at once with None: if every attempt before j raised a network-level
RequestException and attempt j raises a JSONDecodeError, the call returns None
after exactly j + 1 attempts -- no further attempt follows the decode
failure. -/
theorem claim_C6 {β : Type} (attempts : Nat → AttemptOutcome β) (retries j : Nat)
    (hj : j < retries) (hdec : attempts j = AttemptOutcome.decodeError)
    (hpre : ∀ i, i < j → attempts i = AttemptOutcome.requestException) :
    make_api_request attempts retries = (none, j + 1) := by
  unfold make_api_request
  exact apiLoop_decode_stops attempts retries retries 0 j (by omega) (by omega) hj hdec
    (fun i _ h2 => hpre i h2)

/-- Witness for claim C6 with the default 3 retries: attempt 0 is a network
failure, attempt 1 a decode failure; the call returns None after 2 attempts. -/
theorem claim_C6_witness :
    make_api_request
      (fun n => if n = 0 then AttemptOutcome.requestException
        else (AttemptOutcome.decodeError : AttemptOutcome Unit)) 3 = (none, 1 + 1) :=
  claim_C6
    (fun n => if n = 0 then AttemptOutcome.requestException
      else (AttemptOutcome.decodeError : AttemptOutcome Unit)) 3 1
    (by decide) (by decide) (by intro i hi; interval_cases i; decide)

/-- Claim C10: a run of bulk_fetch_articles leaves the caller dict unchanged:
every iteration works on a freshly allocated copy of post_data and the
server_key injection of make_api_request hits only that copy, so the heap
cell of the caller dict still holds the original dict when the call
returns. -/
theorem claim_C10 {α : Type} (srv : Nat → ApiResult α) (serverKey : String)
    (postData : Rec) (totalLimit : Int) :
    (bulk_fetch_articles_state srv serverKey postData totalLimit).1[0]?
      = some postData := by
  unfold bulk_fetch_articles_state
  rw [bulkLoopState_frame srv serverKey
    (min 1000 (pyDictGetInt postData "limit" 1000)) (pyDictGetInt postData "offset" 0)
    totalLimit totalLimit.toNat 0 0 [postData] [] (by simp)]
  rfl

/-! ## Helper lemmas: fine-grained normalizer preservation -/

lemma dictGet_authorStage_not_written (js : String → Option Val) (article : Rec)
    (k : String) (h1 : k ≠ "author_username") (h2 : k ≠ "author_email")
    (h3 : ∀ kv ∈ authorDictOf article,
      ¬(kv.1 = "username" ∨ kv.1 = "email") → "author_" ++ kv.1 ≠ k) :
    dictGet (authorStage js article) k = dictGet article k := by
  unfold authorStage
  unfold authorDictOf at h3
  have hp1 : ∀ i1 i2 : Val,
      dictGet (dictSet (dictSet article "author_username" i1) "author_email" i2) k
        = dictGet article k := by
    intro i1 i2
    rw [dictGet_dictSet_ne _ _ _ _ h2, dictGet_dictSet_ne _ _ _ _ h1]
  cases hauth : (dictGet article "author").getD (Val.vdict []) with
  | vdict d =>
    rw [hauth] at h3
    rw [dictGet_authorFold_ne d k h3 _, hp1]
  | vnull => exact hp1 _ _
  | vbool b => exact hp1 _ _
  | vint n => exact hp1 _ _
  | vstr s => exact hp1 _ _

lemma dictGet_categoryStage_not_written (article p : Rec) (k : String)
    (h : ∀ cd, dictGet article "category" = some (Val.vdict cd) →
      k ≠ "category_name" ∧ k ≠ "category_id") :
    dictGet (categoryStage article p) k = dictGet p k := by
  unfold categoryStage
  cases hcat : dictGet article "category" with
  | none => rfl
  | some v =>
    cases v with
    | vdict cd =>
      obtain ⟨h4, h5⟩ := h cd hcat
      rw [dictGet_dictSet_ne _ _ _ _ h5, dictGet_dictSet_ne _ _ _ _ h4]
    | vnull => rfl
    | vbool b => rfl
    | vint n => rfl
    | vstr s => rfl

lemma dictGet_detailsStage_not_written (user : Rec) (k : String)
    (h : ∀ kv ∈ detailsDictOf user, "details_" ++ kv.1 ≠ k) :
    dictGet (detailsStage user) k = dictGet user k := by
  unfold detailsStage
  unfold detailsDictOf at h
  cases hdet : dictGet user "details" with
  | none => rfl
  | some v =>
    cases v with
    | vdict d =>
      rw [hdet] at h
      exact dictGet_prefixFold_ne "details_" d k h user
    | vnull => rfl
    | vbool b => rfl
    | vint n => rfl
    | vstr s => rfl

lemma dictGet_notificationStage_not_written (js : String → Option Val)
    (user p out : Rec) (k : String) (hout : notificationStage js user p = some out)
    (h : ∀ kv ∈ notifDictOf js user, "notification_" ++ kv.1 ≠ k) :
    dictGet out k = dictGet p k := by
  unfold notificationStage at hout
  unfold notifDictOf at h
  cases hns : dictGet user "notification_settings" with
  | none =>
    rw [hns] at hout
    cases hout
    rfl
  | some v =>
    cases v with
    | vstr s =>
      rw [hns] at hout h
      cases hjs : js s with
      | none =>
        simp only [hjs] at hout
        cases hout
        rfl
      | some w =>
        simp only [hjs] at hout h
        cases w with
        | vdict d =>
          cases hout
          exact dictGet_prefixFold_ne "notification_" d k h p
        | vnull => cases hout
        | vbool b => cases hout
        | vint n => cases hout
        | vstr s2 => cases hout
    | vdict d =>
      rw [hns] at hout h
      cases hout
      exact dictGet_prefixFold_ne "notification_" d k h p
    | vnull => rw [hns] at hout; cases hout
    | vbool b => rw [hns] at hout; cases hout
    | vint n => rw [hns] at hout; cases hout

lemma dictGet_articlePreTs_ne (js : String → Option Val) (article : Rec) (k : String)
    (h1 : k ≠ "author_username") (h2 : k ≠ "author_email")
    (h3 : ∀ x, "author_" ++ x ≠ k)
    (h4 : k ≠ "category_name") (h5 : k ≠ "category_id") :
    dictGet (articlePreTs js article) k = dictGet article k := by
  unfold articlePreTs
  rw [dictGet_categoryStage_ne article _ k h4 h5,
    dictGet_authorStage_ne js article k h1 h2 h3]

lemma isSome_dictGet_articlePreTs (js : String → Option Val) (article : Rec)
    (k : String) (h : (dictGet article k).isSome) :
    (dictGet (articlePreTs js article) k).isSome :=
  isSome_dictGet_categoryStage article _ k (isSome_dictGet_authorStage js article k h)

lemma dictGet_userPreTs_ne (js : String → Option Val) (user p : Rec) (k : String)
    (hp : userPreTs js user = some p)
    (hdet : ∀ x, "details_" ++ x ≠ k) (hnot : ∀ x, "notification_" ++ x ≠ k) :
    dictGet p k = dictGet user k := by
  unfold userPreTs at hp
  rw [dictGet_notificationStage_ne js user (detailsStage user) p k hp hnot,
    dictGet_detailsStage_ne user k hdet]

lemma isSome_dictGet_userPreTs (js : String → Option Val) (user p : Rec) (k : String)
    (hp : userPreTs js user = some p) (h : (dictGet user k).isSome) :
    (dictGet p k).isSome := by
  unfold userPreTs at hp
  exact isSome_dictGet_notificationStage js user (detailsStage user) p k hp
    (isSome_dictGet_detailsStage user k h)

/-- Firing timestamp conversion: if field f of r is present, truthy, parses
to an in-range ts, and the loop over a duplicate-free field list containing f
returns, the output has f_readable holding the formatted string. -/
lemma dictGet_tsConvert_readable (fields : List String) (r out : Rec) (f : String)
    (v : Val) (ts : Int) (hout : tsConvert fields r = some out)
    (hmem : f ∈ fields) (hnodup : fields.Nodup)
    (hg : dictGet r f = some v) (ht : pyTruthy v = true) (hi : pyToInt v = some ts)
    (hok : fromtimestampFmt ts = TsResult.ok (formatTimestamp ts))
    (hsep : ∀ a ∈ fields, ∀ b ∈ fields, b ≠ a ++ "_readable")
    (hinj : ∀ a ∈ fields, a ≠ f → f ++ "_readable" ≠ a ++ "_readable") :
    dictGet out (f ++ "_readable") = some (Val.vstr (formatTimestamp ts)) := by
  induction fields generalizing r with
  | nil => cases hmem
  | cons a rest ih =>
    rw [tsConvert_cons] at hout
    by_cases hfa : f = a
    · subst hfa
      rw [tsStep_fires_eq r f v ts hg ht hi hok] at hout
      have hout2 : tsConvert rest
          (dictSet r (f ++ "_readable") (Val.vstr (formatTimestamp ts)))
          = some out := hout
      have hrest_f : f ∉ rest := (List.nodup_cons.mp hnodup).1
      rw [dictGet_tsConvert_some_ne rest _ out (f ++ "_readable") hout2
        (fun g hgr => hinj g (List.mem_cons_of_mem f hgr)
          (fun he => hrest_f (he ▸ hgr)))]
      exact dictGet_dictSet_self _ _ _
    · cases hstep : tsStep r a with
      | none => rw [hstep] at hout; cases hout
      | some r1 =>
        rw [hstep] at hout
        have hout2 : tsConvert rest r1 = some out := hout
        have hmem' : f ∈ rest := by
          rcases List.mem_cons.mp hmem with h | h
          · exact absurd h hfa
          · exact h
        have hg' : dictGet r1 f = some v := by
          rw [dictGet_tsStep_some_ne r r1 a f hstep
            (hsep a (List.mem_cons_self a rest) f hmem)]
          exact hg
        exact ih r1 hout2 hmem' ((List.nodup_cons.mp hnodup).2 : rest.Nodup) hg'
          (fun x hx y hy => hsep x (List.mem_cons_of_mem a hx) y (List.mem_cons_of_mem a hy))
          (fun x hx hxf => hinj x (List.mem_cons_of_mem a hx) hxf)

/-- Reaching a field whose value parses to a timestamp beyond the platform
time_t aborts the whole timestamp loop (uncaught OverflowError). -/
lemma tsConvert_overflow (fields : List String) (r : Rec) (f : String) (v : Val)
    (ts : Int) (hmem : f ∈ fields)
    (hsep : ∀ a ∈ fields, ∀ b ∈ fields, b ≠ a ++ "_readable")
    (hg : dictGet r f = some v) (ht : pyTruthy v = true) (hi : pyToInt v = some ts)
    (hof : fromtimestampFmt ts = TsResult.overflowError) :
    tsConvert fields r = none := by
  induction fields generalizing r with
  | nil => cases hmem
  | cons a rest ih =>
    rw [tsConvert_cons]
    by_cases hfa : f = a
    · subst hfa
      have hstep : tsStep r f = none := by
        unfold tsStep
        rw [hg]
        simp only [ht, if_true, hi, hof]
      rw [hstep]
      rfl
    · cases hstep : tsStep r a with
      | none => rfl
      | some r1 =>
        have hmem' : f ∈ rest := by
          rcases List.mem_cons.mp hmem with h | h
          · exact absurd h hfa
          · exact h
        have hg1 : dictGet r1 f = some v := by
          rw [dictGet_tsStep_some_ne r r1 a f hstep
            (hsep a (List.mem_cons_self a rest) f hmem)]
          exact hg
        have hnone : tsConvert rest r1 = none :=
          ih r1 hmem'
            (fun x hx y hy => hsep x (List.mem_cons_of_mem a hx) y (List.mem_cons_of_mem a hy))
            hg1
        exact hnone


/-- Claim C7 counterexample: an article whose top-level author_username key
holds "orig" comes out of process_articles_data with author_username
overwritten (the identity fields are written unconditionally, src/app.py
lines 150-151), so the original value is not preserved. -/
theorem claim_C7_cex :
    ¬ (dictGet (((process_articles_data (fun _ => none)
        [[("author_username", Val.vstr "orig")]]).getD []).headD []) "author_username"
      = some (Val.vstr "orig")) := by
  intro h
  rw [show (process_articles_data (fun _ => none) [[("author_username", Val.vstr "orig")]])
      = some [[("author_username", Val.vnull), ("author_email", Val.vnull)]] from rfl] at h
  simp [dictGet] at h

/-- Claim C7 (amended): every top-level key of the input record is present in
the output record (whenever processing returns), and its value is unmodified
unless the key is one of the synthesized field names the normalizer writes
for that record (articleWrittenKeys / userWrittenKeys: the always-written
author identity fields, the flatten-derived keys, and the readable timestamp
keys that fire). -/
theorem claim_C7 (js : String → Option Val) (a u wa wu : Rec) (k : String)
    (ha : process_article js a = some wa) (hu : process_user js u = some wu) :
    ((dictGet a k).isSome → (dictGet wa k).isSome)
    ∧ (k ∉ articleWrittenKeys a → dictGet wa k = dictGet a k)
    ∧ ((dictGet u k).isSome → (dictGet wu k).isSome)
    ∧ (k ∉ userWrittenKeys js u → dictGet wu k = dictGet u k) := by
  have hta : tsConvert articleTimeFields (articlePreTs js a) = some wa := ha
  obtain ⟨p, hp, htc⟩ : ∃ p, userPreTs js u = some p
      ∧ tsConvert userTimeFields p = some wu := by
    unfold process_user at hu
    cases hpc : userPreTs js u with
    | none => rw [hpc] at hu; cases hu
    | some p =>
      rw [hpc] at hu
      exact ⟨p, rfl, hu⟩
  refine ⟨?_, ?_, ?_, ?_⟩
  · intro h
    exact isSome_dictGet_tsConvert articleTimeFields (articlePreTs js a) wa k hta
      (isSome_dictGet_articlePreTs js a k h)
  · intro hk
    have hk1 : k ≠ "author_username" := by
      intro he
      exact hk (by rw [he]; simp [articleWrittenKeys])
    have hk2 : k ≠ "author_email" := by
      intro he
      exact hk (by rw [he]; simp [articleWrittenKeys])
    have hk3 : ∀ kv ∈ authorDictOf a,
        ¬(kv.1 = "username" ∨ kv.1 = "email") → "author_" ++ kv.1 ≠ k := by
      intro kv hkv hskip he
      apply hk
      rw [← he]
      push_neg at hskip
      have hmem : "author_" ++ kv.1 ∈ ((authorDictOf a).filter
          (fun kv => !(kv.1 = "username" || kv.1 = "email"))).map
            (fun kv => "author_" ++ kv.1) :=
        List.mem_map.mpr ⟨kv, List.mem_filter.mpr ⟨hkv, by simp [hskip.1, hskip.2]⟩, rfl⟩
      simp only [articleWrittenKeys, List.mem_append]
      exact Or.inl (Or.inl (Or.inr hmem))
    have hk45 : ∀ cd, dictGet a "category" = some (Val.vdict cd) →
        k ≠ "category_name" ∧ k ≠ "category_id" := by
      intro cd hcd
      constructor
      · intro he
        apply hk
        simp only [articleWrittenKeys, List.mem_append, hcd, he]
        simp
      · intro he
        apply hk
        simp only [articleWrittenKeys, List.mem_append, hcd, he]
        simp
    have hkts : ∀ f ∈ articleTimeFields, tsFires a f = true → k ≠ f ++ "_readable" := by
      intro f hf hfire he
      apply hk
      simp only [articleWrittenKeys, List.mem_append]
      exact Or.inr (List.mem_map.mpr ⟨f, List.mem_filter.mpr ⟨hf, by simp [hfire]⟩, he.symm⟩)
    have hPf : ∀ f ∈ articleTimeFields, dictGet (articlePreTs js a) f = dictGet a f := by
      intro f hf
      simp only [articleTimeFields, List.mem_cons, List.not_mem_nil, or_false] at hf
      rcases hf with rfl | rfl | rfl <;>
        exact dictGet_articlePreTs_ne js a _ (by decide) (by decide)
          (prefix_append_ne "author_" _ (by decide) (by decide)) (by decide) (by decide)
    rw [dictGet_tsConvert_not_fired articleTimeFields (articlePreTs js a) wa k hta
      (by decide)
      (fun f hf hfire => hkts f hf
        ((tsFires_eq_of_get_eq _ _ _ (hPf f hf)).symm.trans hfire))]
    unfold articlePreTs
    rw [dictGet_categoryStage_not_written a _ k hk45,
      dictGet_authorStage_not_written js a k hk1 hk2 hk3]
  · intro h
    exact isSome_dictGet_tsConvert userTimeFields p wu k htc
      (isSome_dictGet_userPreTs js u p k hp h)
  · intro hk
    have hkd : ∀ kv ∈ detailsDictOf u, "details_" ++ kv.1 ≠ k := by
      intro kv hkv he
      apply hk
      rw [← he]
      simp only [userWrittenKeys, List.mem_append]
      exact Or.inl (Or.inl (List.mem_map.mpr ⟨kv, hkv, rfl⟩))
    have hkn : ∀ kv ∈ notifDictOf js u, "notification_" ++ kv.1 ≠ k := by
      intro kv hkv he
      apply hk
      rw [← he]
      simp only [userWrittenKeys, List.mem_append]
      exact Or.inl (Or.inr (List.mem_map.mpr ⟨kv, hkv, rfl⟩))
    have hkts : ∀ g ∈ userTimeFields, tsFires u g = true → k ≠ g ++ "_readable" := by
      intro g hg hfire he
      apply hk
      simp only [userWrittenKeys, List.mem_append]
      exact Or.inr (List.mem_map.mpr ⟨g, List.mem_filter.mpr ⟨hg, by simp [hfire]⟩, he.symm⟩)
    have hPg : ∀ g ∈ userTimeFields, dictGet p g = dictGet u g := by
      intro g hg
      simp only [userTimeFields, List.mem_cons, List.not_mem_nil, or_false] at hg
      rcases hg with rfl | rfl | rfl <;>
        exact dictGet_userPreTs_ne js u p _ hp
          (prefix_append_ne "details_" _ (by decide) (by decide))
          (prefix_append_ne "notification_" _ (by decide) (by decide))
    rw [dictGet_tsConvert_not_fired userTimeFields p wu k htc (by decide)
      (fun g hg hfire => hkts g hg
        ((tsFires_eq_of_get_eq _ _ _ (hPg g hg)).symm.trans hfire))]
    unfold userPreTs at hp
    rw [dictGet_notificationStage_not_written js u (detailsStage u) p k hp hkn,
      dictGet_detailsStage_not_written u k hkd]

/-- Witness for claim C7 at concrete records: the key x of the article and of
the user is not a synthesized key, is still present, and keeps its value. -/
theorem claim_C7_witness :
    ("x" ∉ articleWrittenKeys [("x", Val.vint 1)])
    ∧ ("x" ∉ userWrittenKeys (fun _ => none) [("x", Val.vint 2)])
    ∧ dictGet [("x", Val.vint 1), ("author_username", Val.vnull),
        ("author_email", Val.vnull)] "x" = dictGet [("x", Val.vint 1)] "x"
    ∧ dictGet [("x", Val.vint 2)] "x" = dictGet [("x", Val.vint 2)] "x" :=
  ⟨by decide, by decide,
    (claim_C7 (fun _ => none) [("x", Val.vint 1)] [("x", Val.vint 2)]
      [("x", Val.vint 1), ("author_username", Val.vnull), ("author_email", Val.vnull)]
      [("x", Val.vint 2)] "x" rfl rfl).2.1 (by decide),
    (claim_C7 (fun _ => none) [("x", Val.vint 1)] [("x", Val.vint 2)]
      [("x", Val.vint 1), ("author_username", Val.vnull), ("author_email", Val.vnull)]
      [("x", Val.vint 2)] "x" rfl rfl).2.2.2 (by decide)⟩

/-- Claim C8: for an article whose author field is a dict containing username
or email, processing (whenever it returns) puts exactly the extracted identity
values in author_username and author_email, and the generic flatten loop can
never emit a second author_username or author_email (its keys are
author_ ++ key with key ≠ username, email). -/
theorem claim_C8 (js : String → Option Val) (a w : Rec) (d : List (String × Val))
    (hauth : dictGet a "author" = some (Val.vdict d))
    (hid : (dictGet d "username").isSome ∨ (dictGet d "email").isSome)
    (hw : process_article js a = some w) :
    dictGet w "author_username" = some ((dictGet d "username").getD (Val.vstr ""))
    ∧ dictGet w "author_email" = some ((dictGet d "email").getD (Val.vstr ""))
    ∧ (∀ kv ∈ d, kv.1 ≠ "username" → kv.1 ≠ "email" →
        "author_" ++ kv.1 ≠ "author_username" ∧ "author_" ++ kv.1 ≠ "author_email") := by
  have hta : tsConvert articleTimeFields (articlePreTs js a) = some w := hw
  have hd : d ≠ [] := by
    intro he
    subst he
    rcases hid with h | h <;> simp [dictGet] at h
  have hextract : extract_author_info js ((dictGet a "author").getD (Val.vdict []))
      = ((dictGet d "username").getD (Val.vstr ""),
         (dictGet d "email").getD (Val.vstr "")) := by
    rw [hauth]
    exact extract_author_info_dict js d hd
  refine ⟨?_, ?_, ?_⟩
  · rw [dictGet_tsConvert_some_ne articleTimeFields _ w "author_username" hta (by decide)]
    unfold articlePreTs
    rw [dictGet_categoryStage_ne a _ "author_username" (by decide) (by decide),
      dictGet_authorStage_username js a, hextract]
  · rw [dictGet_tsConvert_some_ne articleTimeFields _ w "author_email" hta (by decide)]
    unfold articlePreTs
    rw [dictGet_categoryStage_ne a _ "author_email" (by decide) (by decide),
      dictGet_authorStage_email js a, hextract]
  · intro kv _ h1 h2
    constructor
    · intro he
      exact h1 (string_eq_of_append_eq "author_" kv.1 "username" (by rw [he]; rfl))
    · intro he
      exact h2 (string_eq_of_append_eq "author_" kv.1 "email" (by rw [he]; rfl))

/-- Witness for claim C8 at a concrete article: author is a dict with
username bob and a further key pic; processing returns, the output has
author_username bob, author_email "" and the flatten-key inequalities hold. -/
theorem claim_C8_witness :
    dictGet [("author", Val.vdict [("username", Val.vstr "bob"), ("pic", Val.vint 1)]),
        ("author_username", Val.vstr "bob"), ("author_email", Val.vstr ""),
        ("author_pic", Val.vint 1)] "author_username"
      = some ((dictGet [("username", Val.vstr "bob"), ("pic", Val.vint 1)]
          "username").getD (Val.vstr ""))
    ∧ dictGet [("author", Val.vdict [("username", Val.vstr "bob"), ("pic", Val.vint 1)]),
        ("author_username", Val.vstr "bob"), ("author_email", Val.vstr ""),
        ("author_pic", Val.vint 1)] "author_email"
      = some ((dictGet [("username", Val.vstr "bob"), ("pic", Val.vint 1)]
          "email").getD (Val.vstr ""))
    ∧ (∀ kv ∈ [("username", Val.vstr "bob"), ("pic", Val.vint 1)],
        kv.1 ≠ "username" → kv.1 ≠ "email" →
        "author_" ++ kv.1 ≠ "author_username" ∧ "author_" ++ kv.1 ≠ "author_email") :=
  claim_C8 (fun _ => none)
    [("author", Val.vdict [("username", Val.vstr "bob"), ("pic", Val.vint 1)])]
    [("author", Val.vdict [("username", Val.vstr "bob"), ("pic", Val.vint 1)]),
     ("author_username", Val.vstr "bob"), ("author_email", Val.vstr ""),
     ("author_pic", Val.vint 1)]
    [("username", Val.vstr "bob"), ("pic", Val.vint 1)] rfl (Or.inl (by decide)) rfl

/-- Claim C9 counterexample: the article field time = 300000000000 is truthy
and int() parses it, yet no time_readable key is added: the timestamp is
within the platform time_t range but the year (about 11475) is outside
datetime's 1..9999, so fromtimestamp raises ValueError, which the
except (ValueError, TypeError) clause at src/app.py lines 171-172 catches,
leaving the record without the readable key — refuting the claim that every
present, non-empty, int-parsable value gets a field_readable key. -/
theorem claim_C9_cex :
    process_article (fun _ => none) [("time", Val.vint 300000000000)]
      = some [("time", Val.vint 300000000000), ("author_username", Val.vnull),
              ("author_email", Val.vnull)]
    ∧ pyTruthy (Val.vint 300000000000) = true
    ∧ pyToInt (Val.vint 300000000000) = some 300000000000
    ∧ ¬ (dictGet [("time", Val.vint 300000000000), ("author_username", Val.vnull),
          ("author_email", Val.vnull)] ("time" ++ "_readable")
        = some (Val.vstr (formatTimestamp 300000000000))) := by
  refine ⟨rfl, rfl, rfl, ?_⟩
  intro h
  rw [show dictGet [("time", Val.vint 300000000000), ("author_username", Val.vnull),
        ("author_email", Val.vnull)] ("time" ++ "_readable") = none from rfl] at h
  exact Option.noConfusion h

/-- Claim C9 (amended): for each recognized timestamp field (time, created_at,
updated_at for articles; lastseen, last_data_update, point_day_expire for
users), whenever processing returns: a missing or non-int-parsable value
leaves the record unchanged for that field and adds no field_readable key; a
present, truthy value parsing to an epoch in datetime's year range 1..9999
adds field_readable holding the fixed-format calendar string; a value parsing
to an epoch outside that range but within the platform time_t raises a
ValueError that the except clause catches, so the record is unchanged for
that field; and a value parsing beyond the time_t range raises an uncaught
OverflowError, so the whole processing call returns nothing. -/
theorem claim_C9 (js : String → Option Val) (a u wa wu : Rec) (f g : String)
    (hf : f ∈ articleTimeFields) (hg : g ∈ userTimeFields) :
    (process_article js a = some wa →
      ((dictGet a f = none ∨ ∃ v, dictGet a f = some v ∧ pyToInt v = none) →
          dictGet wa f = dictGet a f
          ∧ dictGet wa (f ++ "_readable") = dictGet a (f ++ "_readable"))
      ∧ (∀ v ts, dictGet a f = some v → pyTruthy v = true → pyToInt v = some ts →
          tsMinValid ≤ ts → ts ≤ tsMaxValid →
          dictGet wa (f ++ "_readable") = some (Val.vstr (formatTimestamp ts)))
      ∧ (∀ v ts, dictGet a f = some v → pyToInt v = some ts →
          (ts < tsMinValid ∨ tsMaxValid < ts) → timeTMinVal ≤ ts → ts ≤ timeTMaxVal →
          dictGet wa f = dictGet a f
          ∧ dictGet wa (f ++ "_readable") = dictGet a (f ++ "_readable")))
    ∧ (∀ v ts, dictGet a f = some v → pyTruthy v = true → pyToInt v = some ts →
        (ts < timeTMinVal ∨ timeTMaxVal < ts) → process_article js a = none)
    ∧ (process_user js u = some wu →
      ((dictGet u g = none ∨ ∃ v, dictGet u g = some v ∧ pyToInt v = none) →
          dictGet wu g = dictGet u g
          ∧ dictGet wu (g ++ "_readable") = dictGet u (g ++ "_readable"))
      ∧ (∀ v ts, dictGet u g = some v → pyTruthy v = true → pyToInt v = some ts →
          tsMinValid ≤ ts → ts ≤ tsMaxValid →
          dictGet wu (g ++ "_readable") = some (Val.vstr (formatTimestamp ts)))
      ∧ (∀ v ts, dictGet u g = some v → pyToInt v = some ts →
          (ts < tsMinValid ∨ tsMaxValid < ts) → timeTMinVal ≤ ts → ts ≤ timeTMaxVal →
          dictGet wu g = dictGet u g
          ∧ dictGet wu (g ++ "_readable") = dictGet u (g ++ "_readable")))
    ∧ (∀ v ts, dictGet u g = some v → pyTruthy v = true → pyToInt v = some ts →
        (ts < timeTMinVal ∨ timeTMaxVal < ts) → process_user js u = none) := by
  have hPre : ∀ f2 ∈ articleTimeFields,
      dictGet (articlePreTs js a) f2 = dictGet a f2 := by
    intro f2 hf2
    simp only [articleTimeFields, List.mem_cons, List.not_mem_nil, or_false] at hf2
    rcases hf2 with rfl | rfl | rfl <;>
      exact dictGet_articlePreTs_ne js a _ (by decide) (by decide)
        (prefix_append_ne "author_" _ (by decide) (by decide)) (by decide) (by decide)
  have hPreR : ∀ f2 ∈ articleTimeFields,
      dictGet (articlePreTs js a) (f2 ++ "_readable")
        = dictGet a (f2 ++ "_readable") := by
    intro f2 hf2
    simp only [articleTimeFields, List.mem_cons, List.not_mem_nil, or_false] at hf2
    rcases hf2 with rfl | rfl | rfl <;>
      exact dictGet_articlePreTs_ne js a _ (by decide) (by decide)
        (prefix_append_ne "author_" _ (by decide) (by decide)) (by decide) (by decide)
  have hInj : ∀ f1 ∈ articleTimeFields, ∀ f2 ∈ articleTimeFields, f2 ≠ f1 →
      ¬ (f1 ++ "_readable") = f2 ++ "_readable" := by decide
  have hNe : ∀ f1 ∈ articleTimeFields, ∀ f2 ∈ articleTimeFields,
      ¬ f1 = f2 ++ "_readable" := by decide
  have hPreUg : ∀ p, userPreTs js u = some p → ∀ g2 ∈ userTimeFields,
      dictGet p g2 = dictGet u g2 := by
    intro p hp g2 hg2
    simp only [userTimeFields, List.mem_cons, List.not_mem_nil, or_false] at hg2
    rcases hg2 with rfl | rfl | rfl <;>
      exact dictGet_userPreTs_ne js u p _ hp
        (prefix_append_ne "details_" _ (by decide) (by decide))
        (prefix_append_ne "notification_" _ (by decide) (by decide))
  have hPreRUg : ∀ p, userPreTs js u = some p → ∀ g2 ∈ userTimeFields,
      dictGet p (g2 ++ "_readable") = dictGet u (g2 ++ "_readable") := by
    intro p hp g2 hg2
    simp only [userTimeFields, List.mem_cons, List.not_mem_nil, or_false] at hg2
    rcases hg2 with rfl | rfl | rfl <;>
      exact dictGet_userPreTs_ne js u p _ hp
        (prefix_append_ne "details_" _ (by decide) (by decide))
        (prefix_append_ne "notification_" _ (by decide) (by decide))
  have hInjU : ∀ g1 ∈ userTimeFields, ∀ g2 ∈ userTimeFields, g2 ≠ g1 →
      ¬ (g1 ++ "_readable") = g2 ++ "_readable" := by decide
  have hNeU : ∀ g1 ∈ userTimeFields, ∀ g2 ∈ userTimeFields,
      ¬ g1 = g2 ++ "_readable" := by decide
  refine ⟨?_, ?_, ?_, ?_⟩
  · intro ha
    have hta : tsConvert articleTimeFields (articlePreTs js a) = some wa := ha
    have hPf := hPre f hf
    have hunch : tsFires (articlePreTs js a) f = false →
        dictGet wa f = dictGet a f
        ∧ dictGet wa (f ++ "_readable") = dictGet a (f ++ "_readable") := by
      intro hnofire
      constructor
      · rw [dictGet_tsConvert_some_ne articleTimeFields _ wa f hta
          (fun f2 h2 => hNe f hf f2 h2), hPf]
      · have hcond : ∀ f2 ∈ articleTimeFields,
            tsFires (articlePreTs js a) f2 = true →
            (f ++ "_readable") ≠ f2 ++ "_readable" := by
          intro f2 hf2 hfire2
          by_cases heq : f2 = f
          · subst heq
            rw [hnofire] at hfire2
            cases hfire2
          · exact hInj f hf f2 hf2 heq
        rw [dictGet_tsConvert_not_fired articleTimeFields _ wa (f ++ "_readable") hta
          (by decide) hcond, hPreR f hf]
    refine ⟨?_, ?_, ?_⟩
    · intro hn
      apply hunch
      unfold tsFires
      rw [hPf]
      rcases hn with hn | ⟨v, hv, hvi⟩
      · rw [hn]
      · rw [hv]
        simp [hvi]
    · intro v ts hv htr hti hmin hmax
      exact dictGet_tsConvert_readable articleTimeFields (articlePreTs js a) wa f v ts
        hta hf (by decide) (by rw [hPf]; exact hv) htr hti
        (fromtimestampFmt_ok_of_range ts hmin hmax) (by decide)
        (fun a2 ha2 hne2 => hInj f hf a2 ha2 hne2)
    · intro v ts hv hti hrange hlo hhi
      have hval : fromtimestampFmt ts = TsResult.valueError := by
        have hr : ts < (-62135596800 : Int) ∨ (253402300799 : Int) < ts := hrange
        have hb1 : (-9223372036854775808 : Int) ≤ ts := hlo
        have hb2 : ts ≤ (9223372036854775807 : Int) := hhi
        unfold fromtimestampFmt timeTMinVal timeTMaxVal tsMinValid tsMaxValid
        rw [if_neg (by omega), if_pos (by omega)]
      apply hunch
      unfold tsFires
      rw [hPf, hv]
      simp [hti, hval]
  · intro v ts hv htr hti hrange
    have hof : fromtimestampFmt ts = TsResult.overflowError := by
      have hr : ts < (-9223372036854775808 : Int) ∨ (9223372036854775807 : Int) < ts :=
        hrange
      unfold fromtimestampFmt timeTMinVal timeTMaxVal
      rw [if_pos (by omega)]
    unfold process_article
    exact tsConvert_overflow articleTimeFields (articlePreTs js a) f v ts hf (by decide)
      (by rw [hPre f hf]; exact hv) htr hti hof
  · intro hu
    obtain ⟨p, hp, htc⟩ : ∃ p, userPreTs js u = some p
        ∧ tsConvert userTimeFields p = some wu := by
      unfold process_user at hu
      cases hpc : userPreTs js u with
      | none => rw [hpc] at hu; cases hu
      | some p =>
        rw [hpc] at hu
        exact ⟨p, rfl, hu⟩
    have hPg : dictGet p g = dictGet u g := hPreUg p hp g hg
    have hunch : tsFires p g = false →
        dictGet wu g = dictGet u g
        ∧ dictGet wu (g ++ "_readable") = dictGet u (g ++ "_readable") := by
      intro hnofire
      constructor
      · rw [dictGet_tsConvert_some_ne userTimeFields _ wu g htc
          (fun g2 h2 => hNeU g hg g2 h2), hPg]
      · have hcond : ∀ g2 ∈ userTimeFields, tsFires p g2 = true →
            (g ++ "_readable") ≠ g2 ++ "_readable" := by
          intro g2 hg2 hfire2
          by_cases heq : g2 = g
          · subst heq
            rw [hnofire] at hfire2
            cases hfire2
          · exact hInjU g hg g2 hg2 heq
        rw [dictGet_tsConvert_not_fired userTimeFields p wu (g ++ "_readable") htc
          (by decide) hcond, hPreRUg p hp g hg]
    refine ⟨?_, ?_, ?_⟩
    · intro hn
      apply hunch
      unfold tsFires
      rw [hPg]
      rcases hn with hn | ⟨v, hv, hvi⟩
      · rw [hn]
      · rw [hv]
        simp [hvi]
    · intro v ts hv htr hti hmin hmax
      exact dictGet_tsConvert_readable userTimeFields p wu g v ts
        htc hg (by decide) (by rw [hPg]; exact hv) htr hti
        (fromtimestampFmt_ok_of_range ts hmin hmax) (by decide)
        (fun a2 ha2 hne2 => hInjU g hg a2 ha2 hne2)
    · intro v ts hv hti hrange hlo hhi
      have hval : fromtimestampFmt ts = TsResult.valueError := by
        have hr : ts < (-62135596800 : Int) ∨ (253402300799 : Int) < ts := hrange
        have hb1 : (-9223372036854775808 : Int) ≤ ts := hlo
        have hb2 : ts ≤ (9223372036854775807 : Int) := hhi
        unfold fromtimestampFmt timeTMinVal timeTMaxVal tsMinValid tsMaxValid
        rw [if_neg (by omega), if_pos (by omega)]
      apply hunch
      unfold tsFires
      rw [hPg, hv]
      simp [hti, hval]
  · intro v ts hv htr hti hrange
    have hof : fromtimestampFmt ts = TsResult.overflowError := by
      have hr : ts < (-9223372036854775808 : Int) ∨ (9223372036854775807 : Int) < ts :=
        hrange
      unfold fromtimestampFmt timeTMinVal timeTMaxVal
      rw [if_pos (by omega)]
    unfold process_user
    cases hpc : userPreTs js u with
    | none => rfl
    | some p =>
      have hPg : dictGet p g = dictGet u g := hPreUg p hpc g hg
      show tsConvert userTimeFields p = none
      exact tsConvert_overflow userTimeFields p g v ts hg (by decide)
        (by rw [hPg]; exact hv) htr hti hof

/-- Witness for claim C9 at concrete records: article time = "1700000000" and
user lastseen = 1700000000 (within 1..9999) both get a readable key holding
2023-11-14 22:13:20. -/
theorem claim_C9_witness :
    dictGet [("time", Val.vstr "1700000000"), ("author_username", Val.vnull),
        ("author_email", Val.vnull),
        ("time_readable", Val.vstr "2023-11-14 22:13:20")] ("time" ++ "_readable")
      = some (Val.vstr (formatTimestamp 1700000000))
    ∧ dictGet [("lastseen", Val.vint 1700000000),
        ("lastseen_readable", Val.vstr "2023-11-14 22:13:20")]
        ("lastseen" ++ "_readable")
      = some (Val.vstr (formatTimestamp 1700000000)) :=
  ⟨((claim_C9 (fun _ => none) [("time", Val.vstr "1700000000")]
      [("lastseen", Val.vint 1700000000)]
      [("time", Val.vstr "1700000000"), ("author_username", Val.vnull),
       ("author_email", Val.vnull),
       ("time_readable", Val.vstr "2023-11-14 22:13:20")]
      [("lastseen", Val.vint 1700000000),
       ("lastseen_readable", Val.vstr "2023-11-14 22:13:20")]
      "time" "lastseen" (by decide) (by decide)).1 rfl).2.1
      (Val.vstr "1700000000") 1700000000 rfl rfl rfl (by decide) (by decide),
   ((claim_C9 (fun _ => none) [("time", Val.vstr "1700000000")]
      [("lastseen", Val.vint 1700000000)]
      [("time", Val.vstr "1700000000"), ("author_username", Val.vnull),
       ("author_email", Val.vnull),
       ("time_readable", Val.vstr "2023-11-14 22:13:20")]
      [("lastseen", Val.vint 1700000000),
       ("lastseen_readable", Val.vstr "2023-11-14 22:13:20")]
      "time" "lastseen" (by decide) (by decide)).2.2.1 rfl).2.1
      (Val.vint 1700000000) 1700000000 rfl rfl rfl (by decide) (by decide)⟩
